import Mathlib

/-!
# Verification of the relationship-detection and temporal-consistency subsystem

Shallow embedding, in Lean 4, of the relationship-detection core of the
`research-intelligence-agents` repository:

* date resolution (`parse_date` / `get_paper_date` from
  `src/agents/ingestion/relationship_agent.py`),
* classifier-result handling (`RelationshipAgent.detect_relationship`),
* batch detection (`detect_relationships_batch`,
  `detect_relationships_batch_filtered`),
* persistence (`FirestoreClient.store_relationship`,
  `src/storage/firestore_client.py`),
* the sweep script `scripts/regenerate_all_relationships.py`,
* the bidirectional regeneration script
  `scripts/regenerate_lost_relationships.py`,
* the graph-updater handlers (`src/services/graph_updater/main.py`,
  `src/jobs/graph_updater/main.py`),
* the audit/repair scripts (`scripts/reverse_temporal_violations.py`,
  `scripts/cleanup_temporal_violations.py`),
* the `RateLimiter` from `scripts/regenerate_all_relationships_parallel.py`,
* the incremental path of `src/pipelines/ingestion_pipeline.py`.

Python datetimes are modelled as `Int` micro-timestamps obtained from a
calendar-faithful civil-date conversion, so that `datetime` comparison is
`Int` comparison.  The external LLM is opaque: it is modelled as a function
producing an `LLMResponse` (either a raised transport error or a response
text abstracted by the outcome of the JSON extraction of lines 216-228 of
`relationship_agent.py`).  Firestore collections are association lists keyed
by document id.
-/

/-! ## Date parsing (`parse_date`, `relationship_agent.py` lines 24-42) -/

/-- Numeric value of a digit character. -/
def digitVal (c : Char) : Nat := c.toNat - 48

/-- `replaceZ` models `date_str.replace('Z', '+00:00')`. -/
def replaceZ : List Char → List Char
  | [] => []
  | 'Z' :: rest => '+' :: '0' :: '0' :: ':' :: '0' :: '0' :: replaceZ rest
  | c :: rest => c :: replaceZ rest

/-- Read exactly `n` leading digits, accumulating into `acc`. -/
def readFixedNatGo : Nat → Nat → List Char → Option (Nat × List Char)
  | 0, acc, rest => some (acc, rest)
  | _ + 1, _, [] => none
  | k + 1, acc, c :: rest =>
      if c.isDigit then readFixedNatGo k (acc * 10 + digitVal c) rest else none

/-- Read exactly `n` leading digits as a number. -/
def readFixedNat (n : Nat) (cs : List Char) : Option (Nat × List Char) :=
  readFixedNatGo n 0 cs

/-- Greedily read up to `k` further digits (used for `%Y`, `%m`, fractions). -/
def readMoreDigits : Nat → Nat → List Char → Nat × Nat × List Char
  | 0, acc, cs => (acc, 0, cs)
  | k + 1, acc, cs =>
      match cs with
      | [] => (acc, 0, [])
      | c :: rest =>
          if c.isDigit then
            let r := readMoreDigits k (acc * 10 + digitVal c) rest
            (r.1, r.2.1 + 1, r.2.2)
          else (acc, 0, cs)

/-- Greedily read between 1 and `k` digits (strptime-style numeric field).
Returns the value, the number of digits consumed, and the rest. -/
def readNatUpTo (k : Nat) (cs : List Char) : Option (Nat × Nat × List Char) :=
  match cs with
  | [] => none
  | c :: rest =>
      if c.isDigit then
        match k with
        | 0 => none
        | k' + 1 =>
            let r := readMoreDigits k' (digitVal c) rest
            some (r.1, r.2.1 + 1, r.2.2)
      else none

/-- Expect a specific leading character. -/
def expectChar (c : Char) : List Char → Option (List Char)
  | [] => none
  | x :: rest => if x = c then some rest else none

/-- Gregorian leap year, as Python's `calendar`/`datetime` define it. -/
def isLeapYear (y : Nat) : Bool := y % 4 = 0 && (y % 100 != 0 || y % 400 = 0)

/-- Days in a month of a given year. -/
def daysInMonth (y m : Nat) : Nat :=
  if m = 2 then (if isLeapYear y then 29 else 28)
  else if m = 4 || m = 6 || m = 9 || m = 11 then 30
  else 31

/-- Python `datetime` accepts years 1-9999 and validates the calendar. -/
def validYMD (y m d : Nat) : Bool :=
  1 ≤ y && y ≤ 9999 && 1 ≤ m && m ≤ 12 && 1 ≤ d && d ≤ daysInMonth y m

/-- Hours/minutes/seconds ranges accepted by `datetime`. -/
def validHMS (h mi s : Nat) : Bool := h ≤ 23 && mi ≤ 59 && s ≤ 59

/-- Day count of a valid civil date (for `y ≥ 1`), counted from 0000-03-01;
the standard era/year-of-era decomposition.  Only the order of the values
matters here: it agrees with `datetime` order. -/
def daysFromCivil (y m d : Nat) : Nat :=
  let y' := if m ≤ 2 then y - 1 else y
  let era := y' / 400
  let yoe := y' % 400
  let mp := (m + 9) % 12
  let doy := (153 * mp + 2) / 5 + (d - 1)
  let doe := yoe * 365 + yoe / 4 - yoe / 100 + doy
  era * 146097 + doe

/-- Microsecond timestamp of a civil datetime with a UTC offset in minutes.
`datetime` comparison coincides with `Int` comparison of these values
(for naive datetimes take offset 0). -/
def epochMicros (y m d h mi s micro : Nat) (offsetMinutes : Int) : Int :=
  ((daysFromCivil y m d * 86400 + h * 3600 + mi * 60 + s : Nat) : Int) * 1000000
    + (micro : Int) - offsetMinutes * 60 * 1000000

/-- Fractional seconds after the `'.'`: 1 to 6 digits, scaled to microseconds. -/
def parseFraction (cs : List Char) : Option (Nat × List Char) :=
  match readNatUpTo 6 cs with
  | none => none
  | some (v, len, rest) =>
      match rest with
      | c :: _ => if c.isDigit then none else some (v * 10 ^ (6 - len), rest)
      | [] => some (v * 10 ^ (6 - len), [])

/-- UTC offset `±HH:MM` of an aware ISO datetime, in minutes. -/
def parseOffset (cs : List Char) : Option (Int × List Char) := do
  let (sign, cs) ←
    match cs with
    | '+' :: rest => some ((1 : Int), rest)
    | '-' :: rest => some ((-1 : Int), rest)
    | _ => none
  let (oh, cs) ← readFixedNat 2 cs
  let cs ← expectChar ':' cs
  let (om, cs) ← readFixedNat 2 cs
  if oh ≤ 23 && om ≤ 59 then some (sign * (oh * 60 + om), cs) else none

/-- Time-of-day part `HH:MM[:SS[.ffffff]]` of an ISO datetime. -/
def parseTimePart (cs : List Char) :
    Option ((Nat × Nat × Nat × Nat) × List Char) := do
  let (h, cs) ← readFixedNat 2 cs
  let cs ← expectChar ':' cs
  let (mi, cs) ← readFixedNat 2 cs
  let (s, micro, cs) ←
    match expectChar ':' cs with
    | none => some (0, 0, cs)
    | some cs => do
        let (s, cs) ← readFixedNat 2 cs
        match expectChar '.' cs with
        | none => some (s, 0, cs)
        | some cs => do
            let (micro, cs) ← parseFraction cs
            some (s, micro, cs)
  if validHMS h mi s then some ((h, mi, s, micro), cs) else none

/-- Model of `datetime.fromisoformat` on the extended ISO-8601 forms used in
this domain: `YYYY-MM-DD`, optionally followed by `'T'` or `' '` and
`HH:MM[:SS[.ffffff]][±HH:MM]`. -/
def isoParse (cs : List Char) : Option Int := do
  let (y, cs) ← readFixedNat 4 cs
  let cs ← expectChar '-' cs
  let (m, cs) ← readFixedNat 2 cs
  let cs ← expectChar '-' cs
  let (d, cs) ← readFixedNat 2 cs
  if validYMD y m d then
    match cs with
    | [] => some (epochMicros y m d 0 0 0 0 0)
    | sep :: rest =>
        if sep = 'T' || sep = ' ' then do
          let ((h, mi, s, micro), rest) ← parseTimePart rest
          match rest with
          | [] => some (epochMicros y m d h mi s micro 0)
          | _ => do
              let (off, rest) ← parseOffset rest
              match rest with
              | [] => some (epochMicros y m d h mi s micro off)
              | _ => none
        else none
  else none

/-- `strptime(date_str, '%Y-%m-%d')`: year of 1-4 digits, month and day of
1-2 digits, calendar-validated. -/
def fmtYMD (cs : List Char) : Option Int := do
  let (y, _, cs) ← readNatUpTo 4 cs
  let cs ← expectChar '-' cs
  let (m, _, cs) ← readNatUpTo 2 cs
  let cs ← expectChar '-' cs
  let (d, _, cs) ← readNatUpTo 2 cs
  match cs with
  | [] => if validYMD y m d then some (epochMicros y m d 0 0 0 0 0) else none
  | _ => none

/-- `strptime(date_str, '%Y-%m-%dT%H:%M:%S')`. -/
def fmtYMDHMS (cs : List Char) : Option Int := do
  let (y, _, cs) ← readNatUpTo 4 cs
  let cs ← expectChar '-' cs
  let (m, _, cs) ← readNatUpTo 2 cs
  let cs ← expectChar '-' cs
  let (d, _, cs) ← readNatUpTo 2 cs
  let cs ← expectChar 'T' cs
  let (h, _, cs) ← readNatUpTo 2 cs
  let cs ← expectChar ':' cs
  let (mi, _, cs) ← readNatUpTo 2 cs
  let cs ← expectChar ':' cs
  let (s, _, cs) ← readNatUpTo 2 cs
  match cs with
  | [] =>
      if validYMD y m d && validHMS h mi s then
        some (epochMicros y m d h mi s 0 0)
      else none
  | _ => none

/-- `strptime(date_str, '%Y')`: a bare year parses to January 1st. -/
def fmtY (cs : List Char) : Option Int := do
  let (y, _, cs) ← readNatUpTo 4 cs
  match cs with
  | [] => if validYMD y 1 1 then some (epochMicros y 1 1 0 0 0 0 0) else none
  | _ => none

/-- `parse_date` (`relationship_agent.py` lines 24-42): empty is falsy and
yields `None`; then `fromisoformat` on the `Z`-normalised string; then the
formats `%Y-%m-%d`, `%Y-%m-%dT%H:%M:%S`, `%Y` on the original string; else
`None` (fail-soft, never raising). -/
def parseDateChars (cs : List Char) : Option Int :=
  if cs = [] then none
  else
    match isoParse (replaceZ cs) with
    | some t => some t
    | none =>
        match fmtYMD cs with
        | some t => some t
        | none =>
            match fmtYMDHMS cs with
            | some t => some t
            | none => fmtY cs

/-- `parse_date` on a `String`. -/
def parseDate (s : String) : Option Int := parseDateChars s.data

/-! Rational constants for the source's decimal literals, constructed in
lowest terms so that concrete runs evaluate (each is proved equal to its
decimal literal below). -/

/-- The literal `0.5`. -/
def qPoint5 : ℚ := ⟨1, 2, by norm_num, by norm_num⟩

/-- The literal `0.6` (the default `min_confidence`). -/
def qPoint6 : ℚ := ⟨3, 5, by norm_num, by norm_num⟩

/-- The literal `0.7`. -/
def qPoint7 : ℚ := ⟨7, 10, by norm_num, by norm_num⟩

/-- The literal `0.8`. -/
def qPoint8 : ℚ := ⟨4, 5, by norm_num, by norm_num⟩

/-- The literal `0.9`. -/
def qPoint9 : ℚ := ⟨9, 10, by norm_num, by norm_num⟩

/-- The literal `0.1` (the sleep buffer of the rate limiter). -/
def qPoint1 : ℚ := ⟨1, 10, by norm_num, by norm_num⟩

/-! ## Papers and `get_paper_date` (`relationship_agent.py` lines 45-59) -/

/-- A paper document as the detection code reads it: `paper_id`, `title`,
`authors`, `key_finding` are always present in this flow; `abstract`,
`published` and `updated` may be absent (`none`). -/
structure Paper where
  paper_id : String := ""
  title : String := ""
  authors : List String := []
  key_finding : String := ""
  abstract : Option String := none
  published : Option String := none
  updated : Option String := none
  deriving DecidableEq, Repr

/-- Python truthiness of `'k' in paper and paper['k']` for an optional string
field: present and non-empty. -/
def pyTruthy : Option String → Bool
  | none => false
  | some s => s ≠ ""

/-- `get_paper_date`: prefer a parseable `published`, fall back to a
parseable `updated`, else `None`. -/
def getPaperDate (p : Paper) : Option Int :=
  match (if pyTruthy p.published then parseDate (p.published.getD "") else none) with
  | some d => some d
  | none =>
      match (if pyTruthy p.updated then parseDate (p.updated.getD "") else none) with
      | some d => some d
      | none => none

/-! ## Classifier-result handling (`RelationshipAgent.detect_relationship`,
`relationship_agent.py` lines 138-260)

The LLM call itself is external.  An `LLMResponse` is either a raised
transport error / timeout (raised by `asyncio.run`, line 210, which is *not*
inside the `try`), or a response text, abstracted by the outcome of the JSON
extraction and field conversion of lines 216-228 (`none` models the
`json.JSONDecodeError`/`ValueError`/`KeyError` path of line 252, including a
non-numeric `confidence`). -/

/-- Fields of the JSON object extracted from a classifier response; `none`
models an absent key (read with `.get` defaults at lines 231-233). -/
structure RawResult where
  relationship_type : Option String := none
  confidence : Option ℚ := none
  evidence : Option String := none
  deriving DecidableEq, Repr

/-- Outcome of one opaque LLM call. -/
inductive LLMResponse where
  | failure (msg : String)
  | text (parsed : Option RawResult)
  deriving DecidableEq, Repr

/-- The dict returned by `detect_relationship`. -/
structure DetectResult where
  relationship_type : String
  confidence : ℚ
  evidence : String
  deriving DecidableEq, Repr

/-- `valid_types` (line 236). -/
def validTypes : List String := ["supports", "contradicts", "extends", "none"]

/-- `max(0.0, min(1.0, confidence))` (line 242). -/
def clamp01 (x : ℚ) : ℚ := max 0 (min 1 x)

/-- The fallback dict returned when parsing fails (lines 256-260). -/
def fallbackDetectResult : DetectResult :=
  ⟨"none", 0, "Failed to parse relationship detection response"⟩

/-- `detect_relationship` from the point the LLM responds: a raised transport
error propagates (`.error`); a parse failure returns the fallback dict;
otherwise fields are defaulted, the type is validated against `valid_types`
(invalid becomes `"none"`), and the confidence is clamped to `[0,1]`. -/
def detectRelationship (resp : LLMResponse) : Except String DetectResult :=
  match resp with
  | .failure msg => .error msg
  | .text none => .ok fallbackDetectResult
  | .text (some raw) =>
      let rt0 := raw.relationship_type.getD "none"
      let conf := clamp01 (raw.confidence.getD 0)
      let evid := raw.evidence.getD "No evidence provided"
      let rt := if validTypes.contains rt0 then rt0 else "none"
      .ok ⟨rt, conf, evid⟩

/-- A relationship dict as built by the detection paths (the
`similarity_score` key exists only in the filtered path). -/
structure Relationship where
  source_paper_id : String
  target_paper_id : String
  relationship_type : String
  confidence : ℚ
  evidence : String
  similarity_score : Option ℚ := none
  deriving DecidableEq, Repr

/-- Whether an `LLMResponse` is a response at all (not a raised error). -/
def respondsB : LLMResponse → Bool
  | .failure _ => false
  | .text _ => true

/-- The temporal pre-check shared by the detection loops:
`if new_paper_date and existing_paper_date: if new_paper_date < existing_paper_date: skip`.
A pair with an unresolvable date on either side is never skipped. -/
def temporalSkipB : Option Int → Option Int → Bool
  | some nd, some ed => decide (nd < ed)
  | _, _ => false

/-! ## Batch detection (`detect_relationships_batch`, lines 262-324) -/

/-- What one run of the batch loop did: the returned `relationships` list,
the `temporal_violations` skip counter, and the pairs actually sent to the
classifier (in order). -/
structure BatchTrace where
  relationships : List Relationship
  temporalSkips : Nat
  classifiedPairs : List (String × String)
  deriving DecidableEq, Repr

/-- The loop of `detect_relationships_batch` (lines 285-315): skip same
`paper_id`; skip when both dates resolve and the new paper is strictly
older; otherwise classify, and keep the result when
`confidence >= min_confidence` and the type is not `"none"`.  A transport
error raised by the classifier propagates and aborts the whole call
(`.error`). -/
def detectRelationshipsBatchGo (classify : Paper → Paper → LLMResponse)
    (newPaper : Paper) (newDate : Option Int) (minConfidence : ℚ) :
    List Paper → Except String BatchTrace
  | [] => .ok ⟨[], 0, []⟩
  | ep :: rest =>
      if newPaper.paper_id = ep.paper_id then
        detectRelationshipsBatchGo classify newPaper newDate minConfidence rest
      else
        if temporalSkipB newDate (getPaperDate ep) then
          match detectRelationshipsBatchGo classify newPaper newDate minConfidence rest with
          | .error e => .error e
          | .ok t => .ok ⟨t.relationships, t.temporalSkips + 1, t.classifiedPairs⟩
        else
          match detectRelationship (classify newPaper ep) with
          | .error e => .error e
          | .ok result =>
              match detectRelationshipsBatchGo classify newPaper newDate minConfidence rest with
              | .error e => .error e
              | .ok t =>
                  let rels :=
                    if minConfidence ≤ result.confidence ∧ result.relationship_type ≠ "none" then
                      ⟨newPaper.paper_id, ep.paper_id, result.relationship_type,
                        result.confidence, result.evidence, none⟩ :: t.relationships
                    else t.relationships
                  .ok ⟨rels, t.temporalSkips,
                        (newPaper.paper_id, ep.paper_id) :: t.classifiedPairs⟩

/-- `detect_relationships_batch(new_paper, existing_papers, min_confidence)`;
the new paper's date is resolved once before the loop (line 282). -/
def detectRelationshipsBatch (classify : Paper → Paper → LLMResponse)
    (newPaper : Paper) (existingPapers : List Paper) (minConfidence : ℚ) :
    Except String BatchTrace :=
  detectRelationshipsBatchGo classify newPaper (getPaperDate newPaper)
    minConfidence existingPapers

/-! ## Filtered batch detection (`detect_relationships_batch_filtered`,
lines 326-418).  `find_similar_papers` is the external SimilarityRanker; the
loop is embedded over its output list of (paper, similarity) pairs. -/

/-- The per-type threshold map of lines 369-373. -/
def selectiveThresholds : List (String × ℚ) :=
  [("contradicts", qPoint7), ("extends", qPoint5), ("supports", qPoint5)]

/-- The loop of `detect_relationships_batch_filtered` (lines 375-411):
temporal skip as in the plain batch; classify; drop `"none"`; then apply
`thresholds.get(rel_type, 0.6)`.  There is no same-`paper_id` check in this
path. -/
def batchFilteredGo (classify : Paper → Paper → LLMResponse)
    (newPaper : Paper) (newDate : Option Int) :
    List (Paper × ℚ) → Except String BatchTrace
  | [] => .ok ⟨[], 0, []⟩
  | (sp, simScore) :: rest =>
      if temporalSkipB newDate (getPaperDate sp) then
        match batchFilteredGo classify newPaper newDate rest with
        | .error e => .error e
        | .ok t => .ok ⟨t.relationships, t.temporalSkips + 1, t.classifiedPairs⟩
      else
        match detectRelationship (classify newPaper sp) with
        | .error e => .error e
        | .ok result =>
            match batchFilteredGo classify newPaper newDate rest with
            | .error e => .error e
            | .ok t =>
                let rels :=
                  if result.relationship_type = "none" then t.relationships
                  else
                    let minConf := ((selectiveThresholds.lookup result.relationship_type).getD qPoint6)
                    if minConf ≤ result.confidence then
                      ⟨newPaper.paper_id, sp.paper_id, result.relationship_type,
                        result.confidence, result.evidence, some simScore⟩ :: t.relationships
                    else t.relationships
                .ok ⟨rels, t.temporalSkips,
                      (newPaper.paper_id, sp.paper_id) :: t.classifiedPairs⟩

/-- `detect_relationships_batch_filtered`, given the ranked similar papers. -/
def detectRelationshipsBatchFiltered (classify : Paper → Paper → LLMResponse)
    (newPaper : Paper) (similarPapers : List (Paper × ℚ)) :
    Except String BatchTrace :=
  batchFilteredGo classify newPaper (getPaperDate newPaper) similarPapers

/-! ## The bidirectional regeneration pair step
(`scripts/regenerate_lost_relationships.py` lines 110-157) -/

/-- Outcome of one inner-loop iteration of `regenerate_bidirectional`. -/
inductive RegenLostOutcome where
  | samePaperSkip
  | existingPairSkip
  | temporalSkip
  | errorCaught (msg : String)
  | classifiedNoStore
  | stored (rel : Relationship)
  deriving DecidableEq, Repr

/-- One iteration of the inner loop of `regenerate_bidirectional`: skip the
same paper; skip pairs already recorded (the script pre-populates
`existing_pairs` with both orientations of every stored record); skip
temporally illegal directions before calling the LLM; then classify inside a
`try` (so a raised transport error is caught and the loop continues), and
store when `confidence >= 0.6` and the type is not `"none"`. -/
def regenLostPair (classify : Paper → Paper → LLMResponse)
    (existingPairs : List (String × String)) (pa pb : Paper) : RegenLostOutcome :=
  if pa.paper_id = pb.paper_id then .samePaperSkip
  else if (pa.paper_id, pb.paper_id) ∈ existingPairs then .existingPairSkip
  else
    if temporalSkipB (getPaperDate pa) (getPaperDate pb) then .temporalSkip
    else
      match detectRelationship (classify pa pb) with
      | .error e => .errorCaught e
      | .ok r =>
          if qPoint6 ≤ r.confidence ∧ r.relationship_type ≠ "none" then
            .stored ⟨pa.paper_id, pb.paper_id, r.relationship_type, r.confidence,
                      r.evidence, none⟩
          else .classifiedNoStore

/-! ## The graph-updater handlers
(`src/services/graph_updater/main.py` lines 61-133 and
`src/jobs/graph_updater/main.py` lines 69-127)

Both handlers wrap their body in `try/except Exception`.  The body makes two
calls whose Python signatures do not match the call sites:

* `firestore_client.get_relationship(source_id, target_id)` — but
  `FirestoreClient.get_relationship(self, relationship_id)` takes a single
  id, so the call raises `TypeError`;
* `relationship_agent.detect_relationship(source_paper=…, target_paper=…)` —
  but `RelationshipAgent.detect_relationship(self, paper_a, paper_b)` has no
  such keyword parameters, so the call raises `TypeError`;

and, were a result ever obtained, the subsequent
`firestore_client.store_relationship(relationship_data)` would raise
`KeyError` because the dict built at lines 105-112 uses the keys
`source_id`/`target_id` while `store_relationship` reads
`relationship_data['source_paper_id']`.  The Python call discipline is
embedded explicitly so these raises are visible. -/

/-- Parameter names of `RelationshipAgent.detect_relationship` (after `self`). -/
def relationshipAgentParamNames : List String := ["paper_a", "paper_b"]

/-- Keyword names used by both graph-updater call sites. -/
def guDetectCallKwargNames : List String := ["source_paper", "target_paper"]

/-- Python keyword binding: every keyword argument must name a declared
parameter, else the call raises `TypeError`. -/
def pyBindKwargs (params kwargs : List String) : Except String Unit :=
  if kwargs.all (fun k => params.contains k) then .ok ()
  else .error "TypeError: unexpected keyword argument"

/-- Python positional binding: the number of positional arguments must match
the (default-free) parameter count, else the call raises `TypeError`. -/
def pyCheckArity (params args : Nat) : Except String Unit :=
  if args = params then .ok () else .error "TypeError: positional argument count mismatch"

/-- `FirestoreClient.get_relationship` takes one argument after `self`. -/
def getRelationshipParamCount : Nat := 1

/-- The graph-updater handlers pass two: `(source_id, target_id)`. -/
def guGetRelationshipArgCount : Nat := 2

/-- Python subscript access `d[k]` on a dict with key list `keys`. -/
def pyDictAccess (keys : List String) (k : String) : Except String Unit :=
  if keys.contains k then .ok () else .error ("KeyError: " ++ k)

/-- Keys of the `relationship_data` dict built by the graph-updater handlers
(lines 105-112 of the service, 107-114 of the job). -/
def guRelationshipDataKeys : List String :=
  ["source_id", "target_id", "relationship_type", "confidence", "evidence", "created_at"]

/-- Status dict returned by the service handler. -/
inductive GUStatus where
  | success (relationship_type : String) (confidence : ℚ)
  | skipped
  | noRelationship
  | errorStatus (msg : String)
  deriving DecidableEq, Repr

/-- `detect_relationship` of `src/services/graph_updater/main.py`
(lines 61-133).  `existingFound` stands for the truthiness of the existence
lookup, were it ever reached.  The returned pair is (status, stored write).
Note the body performs no date comparison of any kind, and its persist guard
is `if result.get('relationship_type'):` — plain string truthiness. -/
def guServiceDetect (classify : Paper → Paper → LLMResponse)
    (skipExisting existingFound : Bool)
    (sourcePaper targetPaper : Paper) : GUStatus × Option Relationship :=
  let body : Except String (GUStatus × Option Relationship) := do
    if skipExisting then
      pyCheckArity getRelationshipParamCount guGetRelationshipArgCount
      if existingFound then
        return (.skipped, none)
    pyBindKwargs relationshipAgentParamNames guDetectCallKwargNames
    let result ← detectRelationship (classify sourcePaper targetPaper)
    if result.relationship_type ≠ "" then
      pyDictAccess guRelationshipDataKeys "source_paper_id"
      return (.success result.relationship_type result.confidence,
        some ⟨sourcePaper.paper_id, targetPaper.paper_id, result.relationship_type,
              result.confidence, result.evidence, none⟩)
    else
      return (.noRelationship, none)
  match body with
  | .ok r => r
  | .error e => (.errorStatus e, none)

/-- `detect_relationship` of `src/jobs/graph_updater/main.py`
(lines 69-127): same body, returning `True` iff a relationship was found and
stored; the `except` branch returns `False`. -/
def guJobDetect (classify : Paper → Paper → LLMResponse)
    (skipExisting existingFound : Bool)
    (sourcePaper targetPaper : Paper) : Bool × Option Relationship :=
  let body : Except String (Bool × Option Relationship) := do
    if skipExisting then
      pyCheckArity getRelationshipParamCount guGetRelationshipArgCount
      if existingFound then
        return (false, none)
    pyBindKwargs relationshipAgentParamNames guDetectCallKwargNames
    let result ← detectRelationship (classify sourcePaper targetPaper)
    if result.relationship_type ≠ "" then
      pyDictAccess guRelationshipDataKeys "source_paper_id"
      return (true,
        some ⟨sourcePaper.paper_id, targetPaper.paper_id, result.relationship_type,
              result.confidence, result.evidence, none⟩)
    else
      return (false, none)
  match body with
  | .ok r => r
  | .error _ => (false, none)

/-! ## Persistence (`FirestoreClient.store_relationship`,
`src/storage/firestore_client.py` lines 199-236)

The relationship id is
`hashlib.sha256(f"{source}_{target}_{type}".encode()).hexdigest()[:16]`, and
the write is `doc_ref.set(doc_data)` keyed by that id — an upsert.  SHA-256
is implemented below on `Nat` with explicit 32-bit reductions. -/

/-- 2^32. -/
def w32 : Nat := 4294967296

/-- 32-bit addition. -/
def add32 (a b : Nat) : Nat := (a + b) % w32

/-- 32-bit right rotation (input assumed < 2^32). -/
def rotr32 (n x : Nat) : Nat := ((x >>> n) ||| ((x % (1 <<< n)) <<< (32 - n))) % w32

/-- 32-bit complement. -/
def not32 (x : Nat) : Nat := 4294967295 - x

/-- SHA-256 Σ₀. -/
def bigSigma0 (x : Nat) : Nat := rotr32 2 x ^^^ rotr32 13 x ^^^ rotr32 22 x

/-- SHA-256 Σ₁. -/
def bigSigma1 (x : Nat) : Nat := rotr32 6 x ^^^ rotr32 11 x ^^^ rotr32 25 x

/-- SHA-256 σ₀. -/
def smallSigma0 (x : Nat) : Nat := rotr32 7 x ^^^ rotr32 18 x ^^^ (x >>> 3)

/-- SHA-256 σ₁. -/
def smallSigma1 (x : Nat) : Nat := rotr32 17 x ^^^ rotr32 19 x ^^^ (x >>> 10)

/-- SHA-256 Ch. -/
def chW (x y z : Nat) : Nat := (x &&& y) ^^^ (not32 x &&& z)

/-- SHA-256 Maj. -/
def majW (x y z : Nat) : Nat := (x &&& y) ^^^ (x &&& z) ^^^ (y &&& z)

/-- SHA-256 round constants. -/
def sha256K : List Nat :=
  [1116352408, 1899447441, 3049323471, 3921009573,
   961987163, 1508970993, 2453635748, 2870763221,
   3624381080, 310598401, 607225278, 1426881987,
   1925078388, 2162078206, 2614888103, 3248222580,
   3835390401, 4022224774, 264347078, 604807628,
   770255983, 1249150122, 1555081692, 1996064986,
   2554220882, 2821834349, 2952996808, 3210313671,
   3336571891, 3584528711, 113926993, 338241895,
   666307205, 773529912, 1294757372, 1396182291,
   1695183700, 1986661051, 2177026350, 2456956037,
   2730485921, 2820302411, 3259730800, 3345764771,
   3516065817, 3600352804, 4094571909, 275423344,
   430227734, 506948616, 659060556, 883997877,
   958139571, 1322822218, 1537002063, 1747873779,
   1955562222, 2024104815, 2227730452, 2361852424,
   2428436474, 2756734187, 3204031479, 3329325298]

/-- The eight working registers of SHA-256. -/
structure Hash8 where
  a : Nat
  b : Nat
  c : Nat
  d : Nat
  e : Nat
  f : Nat
  g : Nat
  h : Nat
  deriving DecidableEq, Repr

/-- SHA-256 initial hash value. -/
def sha256H0 : Hash8 :=
  ⟨1779033703, 3144134277, 1013904242, 2773480762,
   1359893119, 2600822924, 528734635, 1541459225⟩

/-- Big-endian byte decomposition of a value into `n` bytes. -/
def bytesBE (n v : Nat) : List Nat :=
  (List.range n).map (fun i => (v >>> ((n - 1 - i) * 8)) % 256)

/-- SHA-256 padding of a byte string. -/
def sha256Pad (msg : List Nat) : List Nat :=
  let padZeros := (119 - msg.length % 64) % 64
  msg ++ [128] ++ List.replicate padZeros 0 ++ bytesBE 8 (msg.length * 8)

/-- Big-endian 32-bit words of a byte string. -/
def toWordsBE : List Nat → List Nat
  | a :: b :: c :: d :: rest => (((a * 256 + b) * 256 + c) * 256 + d) :: toWordsBE rest
  | _ => []

/-- Split a word list into 16-word blocks. -/
def blocksOf16 : List Nat → List (List Nat)
  | [] => []
  | w :: rest => ((w :: rest).take 16) :: blocksOf16 ((w :: rest).drop 16)
  termination_by ws => ws.length
  decreasing_by simp [List.length_drop]; omega

/-- Extend the 16-word message schedule by `fuel` more words. -/
def scheduleExtend : Nat → List Nat → List Nat
  | 0, ws => ws
  | k + 1, ws =>
      let n := ws.length
      let w := add32 (add32 (smallSigma1 (ws.getD (n - 2) 0)) (ws.getD (n - 7) 0))
                     (add32 (smallSigma0 (ws.getD (n - 15) 0)) (ws.getD (n - 16) 0))
      scheduleExtend k (ws ++ [w])

/-- The 64-word message schedule of a block. -/
def sha256Schedule (block : List Nat) : List Nat := scheduleExtend 48 block

/-- One SHA-256 round. -/
def roundStep (st : Hash8) (k w : Nat) : Hash8 :=
  let t1 := add32 st.h (add32 (bigSigma1 st.e) (add32 (chW st.e st.f st.g) (add32 k w)))
  let t2 := add32 (bigSigma0 st.a) (majW st.a st.b st.c)
  ⟨add32 t1 t2, st.a, st.b, st.c, add32 st.d t1, st.e, st.f, st.g⟩

/-- Compress one 16-word block into the running hash. -/
def compressBlock (st : Hash8) (block : List Nat) : Hash8 :=
  let fin := (sha256K.zip (sha256Schedule block)).foldl
    (fun s kw => roundStep s kw.1 kw.2) st
  ⟨add32 st.a fin.a, add32 st.b fin.b, add32 st.c fin.c, add32 st.d fin.d,
   add32 st.e fin.e, add32 st.f fin.f, add32 st.g fin.g, add32 st.h fin.h⟩

/-- SHA-256 of a byte string, as the eight final words. -/
def sha256Hash (msg : List Nat) : Hash8 :=
  (blocksOf16 (toWordsBE (sha256Pad msg))).foldl compressBlock sha256H0

/-- Lower-case hex digit. -/
def hexDigit (n : Nat) : Char :=
  if n < 10 then Char.ofNat (48 + n) else Char.ofNat (87 + n)

/-- Lower-case hex of one 32-bit word. -/
def word2hex (w : Nat) : List Char :=
  (List.range 8).map (fun i => hexDigit ((w >>> ((7 - i) * 4)) % 16))

/-- `hashlib.sha256(msg).hexdigest()`. -/
def sha256hex (msg : List Nat) : String :=
  let st := sha256Hash msg
  ⟨([st.a, st.b, st.c, st.d, st.e, st.f, st.g, st.h].map word2hex).flatten⟩

/-- UTF-8 bytes of a string (`str.encode()`). -/
def utf8Bytes (s : String) : List Nat := s.toUTF8.toList.map (fun b => b.toNat)

/-- The deterministic relationship id of `store_relationship` (lines 212-217):
SHA-256 of `"{source}_{target}_{type}"`, first 16 hex characters. -/
def relationshipId (src tgt rtype : String) : String :=
  (sha256hex (utf8Bytes (src ++ "_" ++ tgt ++ "_" ++ rtype))).take 16

/-- A stored relationship document (`doc_data`, lines 220-228); `detected_at`
is the server timestamp of the write. -/
structure StoredDoc where
  source_paper_id : String
  target_paper_id : String
  relationship_type : String
  confidence : ℚ
  evidence : String
  detected_by : String
  detected_at : Int
  deriving DecidableEq, Repr

/-- The `relationships` collection: documents keyed by document id. -/
abbrev RelDB := List (String × StoredDoc)

/-- `doc_ref.set(doc_data)`: document-keyed set semantics — replace the
document with this id if present, else create it. -/
def docSet (db : RelDB) (k : String) (v : StoredDoc) : RelDB :=
  if db.any (fun kv => kv.1 = k) then
    db.map (fun kv => if kv.1 = k then (k, v) else kv)
  else db ++ [(k, v)]

/-- `doc_data` as built at lines 220-228: the detection dicts carry no
`detected_by` key, so its `.get` default `"RelationshipAgent"` applies;
`detected_at` is `firestore.SERVER_TIMESTAMP`, passed here as `now`. -/
def mkStoredDoc (rel : Relationship) (now : Int) : StoredDoc :=
  ⟨rel.source_paper_id, rel.target_paper_id, rel.relationship_type,
   rel.confidence, rel.evidence, "RelationshipAgent", now⟩

/-- `store_relationship(relationship_data)`. -/
def storeRelationship (db : RelDB) (rel : Relationship) (now : Int) : RelDB :=
  docSet db (relationshipId rel.source_paper_id rel.target_paper_id rel.relationship_type)
    (mkStoredDoc rel now)

/-- Document ids of the collection. -/
def dbKeys (db : RelDB) : List String := db.map (·.1)

/-- Storing every relationship of a detection run, in order (the storing
loops of `regenerate_all_relationships.py` lines 157-159,
`ingestion_pipeline.py` lines 207-209, etc.). -/
def storeAll (db : RelDB) (rels : List Relationship) (now : Int) : RelDB :=
  rels.foldl (fun d r => storeRelationship d r now) db

/-! ## The full sweep (`scripts/regenerate_all_relationships.py` lines 43-180)

Papers are sorted by resolved date, newest first
(`sort(key=lambda x: x[1] if x[1] else datetime.min, reverse=True)`, a
stable descending sort), then the paper at each index is batch-compared
against every later (older) paper with `min_confidence=0.6`.  The per-paper
`try` of lines 143-174 catches exceptions and continues with the next
paper. -/

/-- `datetime.min` (year 1, January 1) as a micro-timestamp. -/
def pyDatetimeMin : Int := epochMicros 1 1 1 0 0 0 0 0

/-- The sort key of line 67: the resolved date, with `None` replaced by
`datetime.min`. -/
def sweepSortKey (pd : Paper × Option Int) : Int := pd.2.getD pyDatetimeMin

/-- Stable insertion into a descending-sorted list: the new element goes
after every element with a greater-or-equal key. -/
def insertDescBy {α : Type} (key : α → Int) (x : α) : List α → List α
  | [] => [x]
  | y :: ys => if key y < key x then x :: y :: ys else y :: insertDescBy key x ys

/-- Stable descending sort by key (the behaviour of Python's stable
`list.sort(key=…, reverse=True)`). -/
def sortByKeyDesc {α : Type} (key : α → Int) : List α → List α
  | [] => []
  | x :: xs => insertDescBy key x (sortByKeyDesc key xs)

/-- Lines 66-68: pair every paper with its resolved date, sort newest first,
and project the papers back out. -/
def sortPapersNewestFirst (papers : List Paper) : List Paper :=
  (sortByKeyDesc sweepSortKey (papers.map (fun p => (p, getPaperDate p)))).map (·.1)

/-- What a sweep run did: classifier calls (in order), temporal skips,
relationships returned by the batches, and papers whose batch aborted with a
caught exception. -/
structure SweepTrace where
  classifiedPairs : List (String × String)
  temporalSkips : Nat
  stored : List Relationship
  paperErrors : Nat
  deriving DecidableEq, Repr

/-- The main loop of `regenerate_all` (lines 125-180): for each paper in
sorted order, batch-detect against the strictly later (older) tail; an empty
tail is skipped (line 136); a raised exception is caught per paper
(line 172) and the sweep continues. -/
def regenerateAllGo (classify : Paper → Paper → LLMResponse) : List Paper → SweepTrace
  | [] => ⟨[], 0, [], 0⟩
  | p :: rest =>
      let t := regenerateAllGo classify rest
      if rest.isEmpty then t
      else
        match detectRelationshipsBatch classify p rest qPoint6 with
        | .error _ =>
            ⟨t.classifiedPairs, t.temporalSkips, t.stored, t.paperErrors + 1⟩
        | .ok bt =>
            ⟨bt.classifiedPairs ++ t.classifiedPairs, bt.temporalSkips + t.temporalSkips,
              bt.relationships ++ t.stored, t.paperErrors⟩

/-- `regenerate_all`, from the corpus to the sweep trace. -/
def regenerateAllSweep (classify : Paper → Paper → LLMResponse)
    (papers : List Paper) : SweepTrace :=
  regenerateAllGo classify (sortPapersNewestFirst papers)

/-! ## The auditor (`scripts/reverse_temporal_violations.py`, and the
identical duplicate scan of `scripts/cleanup_temporal_violations.py`) -/

/-- A relationship as loaded by the audit scripts: the document dict plus
`relationship_id = doc.id` (lines 148-153).  Documents written by the
"reverse" repair carry no `detected_at` (the `add()` dict of lines 223-230
has none), hence the `Option`. -/
structure RelRecord where
  relationship_id : String
  source_paper_id : String
  target_paper_id : String
  relationship_type : String
  confidence : ℚ := 0
  evidence : String := ""
  description : String := ""
  detected_at : Option Int := none
  deriving DecidableEq, Repr

/-- `papers_map = {p['paper_id']: p for p in papers}` followed by `.get`:
for duplicate ids the later paper wins, as in a dict comprehension. -/
def papersMapGet (papers : List Paper) (pid : String) : Option Paper :=
  papers.foldl (fun acc p => if p.paper_id = pid then some p else acc) none

/-- The fields of a violation entry that the repair uses (lines 66-78;
the title/date strings built only for logging are omitted). -/
structure ViolationInfo where
  relationship_id : String
  source_id : String
  target_id : String
  relationship_type : String
  confidence : ℚ
  evidence : String
  description : String
  deriving DecidableEq, Repr

/-- The per-record body of the loop of `find_temporal_violations_to_reverse`
(lines 50-78): a record is flagged iff both endpoint papers are found and
have resolvable dates and the source date is strictly earlier than the
target date. -/
def violationOf (papers : List Paper) (rel : RelRecord) : Option ViolationInfo :=
  match papersMapGet papers rel.source_paper_id,
        papersMapGet papers rel.target_paper_id with
  | some sp, some tp =>
      match getPaperDate sp, getPaperDate tp with
      | some sd, some td =>
          if sd < td then
            some ⟨rel.relationship_id, rel.source_paper_id, rel.target_paper_id,
                  rel.relationship_type, rel.confidence, rel.evidence, rel.description⟩
          else none
      | _, _ => none
  | _, _ => none

/-- `find_temporal_violations_to_reverse` (lines 34-80). -/
def findTemporalViolationsToReverse (rels : List RelRecord) (papers : List Paper) :
    List ViolationInfo :=
  rels.filterMap (violationOf papers)

/-- Lexicographic code-point comparison of character lists — Python's
string `<=` used by `sorted`. -/
def charListLe : List Char → List Char → Bool
  | [], _ => true
  | _ :: _, [] => false
  | a :: as, b :: bs =>
      if a.toNat < b.toNat then true
      else if b.toNat < a.toNat then false
      else charListLe as bs

/-- `tuple(sorted([source_id, target_id]))`. -/
def normPair (a b : String) : String × String :=
  if charListLe a.data b.data then (a, b) else (b, a)

/-- The scan loop of `find_bidirectional_contradictions` (lines 102-117 of
the cleanup script, 103-117 of the reversal script): walk the `contradicts`
records in order, remember normalized pairs already seen, and flag every
record whose pair was seen before. -/
def findBidirectionalGo : List RelRecord → List (String × String) → List String
  | [], _ => []
  | rel :: rest, seen =>
      let pair := normPair rel.source_paper_id rel.target_paper_id
      if pair ∈ seen then rel.relationship_id :: findBidirectionalGo rest seen
      else findBidirectionalGo rest (pair :: seen)

/-- `find_bidirectional_contradictions(relationships)`. -/
def findBidirectionalContradictions (rels : List RelRecord) : List String :=
  findBidirectionalGo (rels.filter (fun r => r.relationship_type = "contradicts")) []

/-- The record inserted by the "reverse" repair for a violation (lines
223-230): source/target swapped, type, confidence, evidence and description
preserved, a fresh auto-generated document id, and no `detected_at`. -/
def reversedRecord (v : ViolationInfo) (newId : String) : RelRecord :=
  { relationship_id := newId, source_paper_id := v.target_id,
    target_paper_id := v.source_id, relationship_type := v.relationship_type,
    confidence := v.confidence, evidence := v.evidence,
    description := v.description, detected_at := none }

/-- Firestore `document(rid).delete()`: removes the document with that id
(a no-op if it is already gone). -/
def deleteById (st : List RelRecord) (rid : String) : List RelRecord :=
  st.filter (fun r => r.relationship_id ≠ rid)

/-- The repair phase of `main` (lines 210-256): first every violation is
reversed (delete the old document, `add` the swapped one under a fresh id
taken here from `newIds`), then every id flagged by the duplicate scan is
deleted.  Both scans run on the *pre-repair* list, exactly as in `main`,
which computes them before mutating (lines 160 and 177). -/
def applyRepair (rels : List RelRecord) (papers : List Paper) (newIds : List String) :
    List RelRecord :=
  let vs := findTemporalViolationsToReverse rels papers
  let ds := findBidirectionalContradictions rels
  let afterRev := (vs.zip newIds).foldl
    (fun st vn => deleteById st vn.1.relationship_id ++ [reversedRecord vn.1 vn.2]) rels
  ds.foldl (fun st rid => deleteById st rid) afterRev

/-! ## The rate limiter
(`scripts/regenerate_all_relationships_parallel.py` lines 44-71)

`wait_if_needed` runs entirely inside `with self.lock`, so concurrent
acquisitions are serialized; a run is therefore a sequence of acquisitions.
The three `time.time()` observations of one acquisition are `t1` (line 55),
`t2` (line 67, after the sleep; equal to any value ≥ `t1` when no sleep
happens, since the cap branch was not taken it is unused), and `t3`
(line 71, the recorded timestamp).  `time.sleep(wait_time)` with
`wait_time = 60 - (now - oldest) + 0.1` guarantees
`t2 ≥ oldest + 60 + 0.1`. -/

/-- Line 57: drop calls older than one minute. -/
def pruneCalls (now : ℚ) (calls : List ℚ) : List ℚ :=
  calls.filter (fun t => decide (now - t < 60))

/-- The three time observations of one `wait_if_needed` call. -/
structure AcquireTimes where
  t1 : ℚ
  t2 : ℚ
  t3 : ℚ
  deriving DecidableEq, Repr

/-- `wait_if_needed` as a state transformer on the call log. -/
def waitIfNeeded (maxCalls : Nat) (calls : List ℚ) (a : AcquireTimes) : List ℚ :=
  let pruned := pruneCalls a.t1 calls
  if maxCalls ≤ pruned.length then pruneCalls a.t2 pruned ++ [a.t3]
  else pruned ++ [a.t3]

/-- Physical well-formedness of one acquisition: time is monotone across the
three observations and across acquisitions, and if the cap branch was taken
then the sleep of line 65 has elapsed: `t2 ≥ calls[0] + 60 + 0.1`. -/
def acquireOKb (maxCalls : Nat) (calls : List ℚ) (tPrev : ℚ) (a : AcquireTimes) : Bool :=
  decide (tPrev ≤ a.t1) && decide (a.t1 ≤ a.t2) && decide (a.t2 ≤ a.t3) &&
  (if maxCalls ≤ (pruneCalls a.t1 calls).length then
      decide ((pruneCalls a.t1 calls).headD 0 + 60 + qPoint1 ≤ a.t2)
    else true)

/-- Well-formedness of a serialized trace of acquisitions, threading the
call-log state and the last observed time. -/
def traceOKb (maxCalls : Nat) : ℚ → List ℚ → List AcquireTimes → Bool
  | _, _, [] => true
  | tPrev, calls, a :: rest =>
      acquireOKb maxCalls calls tPrev a &&
      traceOKb maxCalls a.t3 (waitIfNeeded maxCalls calls a) rest

/-- The timestamps recorded by a trace (one per admitted call, line 71). -/
def limiterRecorded (as : List AcquireTimes) : List ℚ := as.map (·.t3)

/-- Number of timestamps falling in the rolling window `(T-60, T]`. -/
def windowCount (ts : List ℚ) (T : ℚ) : Nat :=
  (ts.filter (fun t => decide (T - 60 < t) && decide (t ≤ T))).length

/-! ## The incremental ingestion path
(`src/pipelines/ingestion_pipeline.py` lines 190-204) -/

/-- The `new_paper` dict built at lines 190-196: only `paper_id`, `title`,
`authors` and `key_finding` — no `published` or `updated` key. -/
def pipelineNewPaper (paperId title : String) (authors : List String)
    (keyFinding : String) : Paper :=
  { paper_id := paperId, title := title, authors := authors,
    key_finding := keyFinding }

/-! ## Auxiliary definitions for the statements below -/

/-- The sort key of the sweep, seen on the paper itself. -/
def paperKey (p : Paper) : Int := (getPaperDate p).getD pyDatetimeMin

/-- The invariant threaded through a rate-limiter run: `hist` is every
timestamp ever recorded, `calls` the current log, `tcur` the last observed
time.  The log is exactly the unexpired part of the history for some past
prune time, the log never exceeds the cap, and no rolling window of the
history exceeds the cap. -/
def limiterInv (maxCalls : Nat) (hist calls : List ℚ) (tcur : ℚ) : Prop :=
  (∃ p, p ≤ tcur ∧ calls = hist.filter (fun r => decide (p - 60 < r))) ∧
  calls.length ≤ maxCalls ∧
  (∀ T, windowCount hist T ≤ maxCalls)

/-! Concrete sample data used by witnesses and counterexamples. -/

/-- A paper published 2019-01-01. -/
def paperA2019 : Paper := { paper_id := "A", title := "paper A", published := some "2019-01-01" }

/-- A paper published 2021-01-01. -/
def paperB2021 : Paper := { paper_id := "B", title := "paper B", published := some "2021-01-01" }

/-- A paper published 2017-01-01. -/
def paperC2017 : Paper := { paper_id := "C", title := "paper C", published := some "2017-01-01" }

/-- A classifier response: well-formed `supports` with confidence 0.9. -/
def respSupports09 : LLMResponse :=
  .text (some { relationship_type := some "supports", confidence := some qPoint9,
                evidence := some "ev" })

/-- A classifier returning the same response for every pair. -/
def classifyAlways (r : LLMResponse) : Paper → Paper → LLMResponse := fun _ _ => r

/-- A classifier whose call against paper `"A"` raises a transport error and
which otherwise answers `supports`/0.9. -/
def classifyFailOnA : Paper → Paper → LLMResponse :=
  fun _ pb => if pb.paper_id = "A" then .failure "ConnectionError" else respSupports09

/-- A stored `contradicts` edge B→A scanned first, detected at time 5. -/
def contraFirstNewer : RelRecord :=
  { relationship_id := "r1", source_paper_id := "B", target_paper_id := "A",
    relationship_type := "contradicts", confidence := qPoint8, detected_at := some 5 }

/-- A stored `contradicts` edge A→B scanned second, detected at time 3
(the *older* record of the duplicate pair). -/
def contraSecondOlder : RelRecord :=
  { relationship_id := "r2", source_paper_id := "A", target_paper_id := "B",
    relationship_type := "contradicts", confidence := qPoint8, detected_at := some 3 }

deriving instance DecidableEq for Except

/-! ## Lemmas -/

theorem qPoint5_eq : qPoint5 = 0.5 := by
  rw [qPoint5, Rat.mk'_eq_divInt, Rat.divInt_eq_div]; norm_num

theorem qPoint6_eq : qPoint6 = 0.6 := by
  rw [qPoint6, Rat.mk'_eq_divInt, Rat.divInt_eq_div]; norm_num

theorem qPoint7_eq : qPoint7 = 0.7 := by
  rw [qPoint7, Rat.mk'_eq_divInt, Rat.divInt_eq_div]; norm_num

theorem qPoint8_eq : qPoint8 = 0.8 := by
  rw [qPoint8, Rat.mk'_eq_divInt, Rat.divInt_eq_div]; norm_num

theorem qPoint9_eq : qPoint9 = 0.9 := by
  rw [qPoint9, Rat.mk'_eq_divInt, Rat.divInt_eq_div]; norm_num

theorem qPoint1_eq : qPoint1 = 0.1 := by
  rw [qPoint1, Rat.mk'_eq_divInt, Rat.divInt_eq_div]; norm_num

theorem detectRelationship_type_valid {resp : LLMResponse} {res : DetectResult}
    (h : detectRelationship resp = .ok res) : res.relationship_type ∈ validTypes := by
  cases resp with
  | failure m => simp [detectRelationship] at h
  | text p =>
    cases p with
    | none =>
        simp [detectRelationship] at h
        rw [← h]
        simp [fallbackDetectResult, validTypes]
    | some raw =>
        simp only [detectRelationship] at h
        by_cases hc : validTypes.contains (raw.relationship_type.getD "none")
        · rw [if_pos hc] at h
          cases h
          exact List.mem_of_elem_eq_true hc
        · rw [if_neg hc] at h
          cases h
          simp [validTypes]

theorem batchGo_rel_sound (classify : Paper → Paper → LLMResponse) (np : Paper)
    (nd : Option Int) (mc : ℚ) :
    ∀ (eps : List Paper) (t : BatchTrace),
      detectRelationshipsBatchGo classify np nd mc eps = .ok t →
      ∀ rel ∈ t.relationships,
        rel.source_paper_id = np.paper_id ∧ rel.relationship_type ∈ validTypes ∧
        rel.relationship_type ≠ "none" ∧ mc ≤ rel.confidence ∧
        ∃ ep ∈ eps, rel.target_paper_id = ep.paper_id ∧
          temporalSkipB nd (getPaperDate ep) = false := by
  intro eps
  induction eps with
  | nil =>
      intro t ht rel hrel
      simp only [detectRelationshipsBatchGo, Except.ok.injEq] at ht
      rw [← ht] at hrel
      simp at hrel
  | cons ep rest ih =>
      intro t ht rel hrel
      by_cases hid : np.paper_id = ep.paper_id
      · rw [detectRelationshipsBatchGo, if_pos hid] at ht
        obtain ⟨h1, h2, h3, h4, ep', hep', h5⟩ := ih t ht rel hrel
        exact ⟨h1, h2, h3, h4, ep', List.mem_cons_of_mem _ hep', h5⟩
      · rw [detectRelationshipsBatchGo, if_neg hid] at ht
        cases hskip : temporalSkipB nd (getPaperDate ep) with
        | true =>
            rw [hskip] at ht
            simp only [if_true] at ht
            cases hrec : detectRelationshipsBatchGo classify np nd mc rest with
            | error e => rw [hrec] at ht; exact absurd ht (by simp)
            | ok t' =>
                rw [hrec] at ht
                simp only [Except.ok.injEq] at ht
                rw [← ht] at hrel
                simp only at hrel
                obtain ⟨h1, h2, h3, h4, ep', hep', h5⟩ := ih t' hrec rel hrel
                exact ⟨h1, h2, h3, h4, ep', List.mem_cons_of_mem _ hep', h5⟩
        | false =>
            rw [hskip] at ht
            simp only [if_false, Bool.false_eq_true] at ht
            cases hdet : detectRelationship (classify np ep) with
            | error e => rw [hdet] at ht; exact absurd ht (by simp)
            | ok result =>
                rw [hdet] at ht
                cases hrec : detectRelationshipsBatchGo classify np nd mc rest with
                | error e => rw [hrec] at ht; exact absurd ht (by simp)
                | ok t' =>
                    rw [hrec] at ht
                    simp only [Except.ok.injEq] at ht
                    rw [← ht] at hrel
                    simp only at hrel
                    by_cases hkeep : mc ≤ result.confidence ∧ result.relationship_type ≠ "none"
                    · rw [if_pos hkeep] at hrel
                      rcases List.mem_cons.mp hrel with hrel0 | hrel'
                      · subst hrel0
                        refine ⟨rfl, ?_, hkeep.2, hkeep.1, ep, List.mem_cons_self _ _, rfl, hskip⟩
                        exact detectRelationship_type_valid hdet
                      · obtain ⟨h1, h2, h3, h4, ep', hep', h5⟩ := ih t' hrec rel hrel'
                        exact ⟨h1, h2, h3, h4, ep', List.mem_cons_of_mem _ hep', h5⟩
                    · rw [if_neg hkeep] at hrel
                      obtain ⟨h1, h2, h3, h4, ep', hep', h5⟩ := ih t' hrec rel hrel
                      exact ⟨h1, h2, h3, h4, ep', List.mem_cons_of_mem _ hep', h5⟩

theorem batchGo_ok_of_responds (classify : Paper → Paper → LLMResponse) (np : Paper)
    (nd : Option Int) (mc : ℚ) :
    ∀ (eps : List Paper), (∀ ep ∈ eps, respondsB (classify np ep) = true) →
      ∃ t, detectRelationshipsBatchGo classify np nd mc eps = .ok t := by
  intro eps
  induction eps with
  | nil => intro _; exact ⟨⟨[], 0, []⟩, rfl⟩
  | cons ep rest ih =>
      intro hresp
      obtain ⟨t', ht'⟩ := ih (fun q hq => hresp q (List.mem_cons_of_mem _ hq))
      by_cases hid : np.paper_id = ep.paper_id
      · exact ⟨t', by rw [detectRelationshipsBatchGo, if_pos hid]; exact ht'⟩
      · cases hskip : temporalSkipB nd (getPaperDate ep) with
        | true =>
            refine ⟨⟨t'.relationships, t'.temporalSkips + 1, t'.classifiedPairs⟩, ?_⟩
            rw [detectRelationshipsBatchGo, if_neg hid, hskip]
            simp only [if_true, ht']
        | false =>
            have hr : respondsB (classify np ep) = true :=
              hresp ep (List.mem_cons_self _ _)
            cases hcl : classify np ep with
            | failure m => rw [hcl] at hr; simp [respondsB] at hr
            | text p =>
                have hdet : ∃ res, detectRelationship (classify np ep) = .ok res := by
                  rw [hcl]
                  cases p with
                  | none => exact ⟨fallbackDetectResult, rfl⟩
                  | some raw => exact ⟨_, rfl⟩
                obtain ⟨res, hres⟩ := hdet
                refine ⟨⟨(if mc ≤ res.confidence ∧ res.relationship_type ≠ "none" then
                    ⟨np.paper_id, ep.paper_id, res.relationship_type, res.confidence,
                      res.evidence, none⟩ :: t'.relationships else t'.relationships),
                    t'.temporalSkips, (np.paper_id, ep.paper_id) :: t'.classifiedPairs⟩, ?_⟩
                rw [detectRelationshipsBatchGo, if_neg hid, hskip]
                simp only [Bool.false_eq_true, if_false, hres, ht']

theorem batchGo_pairs_eq (classify : Paper → Paper → LLMResponse) (np : Paper)
    (nd : Option Int) (mc : ℚ) :
    ∀ (eps : List Paper) (t : BatchTrace),
      detectRelationshipsBatchGo classify np nd mc eps = .ok t →
      (∀ ep ∈ eps, np.paper_id ≠ ep.paper_id) →
      (∀ ep ∈ eps, temporalSkipB nd (getPaperDate ep) = false) →
      t.classifiedPairs = eps.map (fun ep => (np.paper_id, ep.paper_id)) ∧
        t.temporalSkips = 0 := by
  intro eps
  induction eps with
  | nil =>
      intro t ht _ _
      simp only [detectRelationshipsBatchGo, Except.ok.injEq] at ht
      rw [← ht]
      exact ⟨rfl, rfl⟩
  | cons ep rest ih =>
      intro t ht hid hskip
      have hid0 : np.paper_id ≠ ep.paper_id := hid ep (List.mem_cons_self _ _)
      have hskip0 : temporalSkipB nd (getPaperDate ep) = false :=
        hskip ep (List.mem_cons_self _ _)
      rw [detectRelationshipsBatchGo, if_neg hid0, hskip0] at ht
      simp only [Bool.false_eq_true, if_false] at ht
      cases hdet : detectRelationship (classify np ep) with
      | error e => rw [hdet] at ht; exact absurd ht (by simp)
      | ok result =>
          rw [hdet] at ht
          cases hrec : detectRelationshipsBatchGo classify np nd mc rest with
          | error e => rw [hrec] at ht; exact absurd ht (by simp)
          | ok t' =>
              rw [hrec] at ht
              simp only [Except.ok.injEq] at ht
              obtain ⟨hp, hs⟩ := ih t' hrec
                (fun q hq => hid q (List.mem_cons_of_mem _ hq))
                (fun q hq => hskip q (List.mem_cons_of_mem _ hq))
              rw [← ht]
              simp only [List.map_cons]
              exact ⟨by rw [hp], hs⟩

theorem batchGo_skips_zero_of_none (classify : Paper → Paper → LLMResponse) (np : Paper)
    (mc : ℚ) :
    ∀ (eps : List Paper) (t : BatchTrace),
      detectRelationshipsBatchGo classify np none mc eps = .ok t →
      t.temporalSkips = 0 := by
  intro eps
  induction eps with
  | nil =>
      intro t ht
      simp only [detectRelationshipsBatchGo, Except.ok.injEq] at ht
      rw [← ht]
  | cons ep rest ih =>
      intro t ht
      by_cases hid : np.paper_id = ep.paper_id
      · rw [detectRelationshipsBatchGo, if_pos hid] at ht
        exact ih t ht
      · rw [detectRelationshipsBatchGo, if_neg hid] at ht
        have hskip : temporalSkipB none (getPaperDate ep) = false := by
          simp [temporalSkipB]
        rw [hskip] at ht
        simp only [Bool.false_eq_true, if_false] at ht
        cases hdet : detectRelationship (classify np ep) with
        | error e => rw [hdet] at ht; exact absurd ht (by simp)
        | ok result =>
            rw [hdet] at ht
            cases hrec : detectRelationshipsBatchGo classify np none mc rest with
            | error e => rw [hrec] at ht; exact absurd ht (by simp)
            | ok t' =>
                rw [hrec] at ht
                simp only [Except.ok.injEq] at ht
                rw [← ht]
                exact ih t' hrec

theorem batchGo_classified_mem (classify : Paper → Paper → LLMResponse) (np : Paper)
    (nd : Option Int) (mc : ℚ) :
    ∀ (eps : List Paper) (t : BatchTrace),
      detectRelationshipsBatchGo classify np nd mc eps = .ok t →
      ∀ ep ∈ eps, np.paper_id ≠ ep.paper_id →
        temporalSkipB nd (getPaperDate ep) = false →
        (np.paper_id, ep.paper_id) ∈ t.classifiedPairs := by
  intro eps
  induction eps with
  | nil => intro t _ ep hep; simp at hep
  | cons ep0 rest ih =>
      intro t ht ep hep hid hskip
      by_cases hid0 : np.paper_id = ep0.paper_id
      · rw [detectRelationshipsBatchGo, if_pos hid0] at ht
        rcases List.mem_cons.mp hep with h0 | h'
        · subst h0; exact absurd hid0 hid
        · exact ih t ht ep h' hid hskip
      · rw [detectRelationshipsBatchGo, if_neg hid0] at ht
        cases hskip0 : temporalSkipB nd (getPaperDate ep0) with
        | true =>
            rw [hskip0] at ht
            simp only [if_true] at ht
            cases hrec : detectRelationshipsBatchGo classify np nd mc rest with
            | error e => rw [hrec] at ht; exact absurd ht (by simp)
            | ok t' =>
                rw [hrec] at ht
                simp only [Except.ok.injEq] at ht
                rcases List.mem_cons.mp hep with h0 | h'
                · subst h0; rw [hskip0] at hskip; exact absurd hskip (by simp)
                · rw [← ht]
                  exact ih t' hrec ep h' hid hskip
        | false =>
            rw [hskip0] at ht
            simp only [Bool.false_eq_true, if_false] at ht
            cases hdet : detectRelationship (classify np ep0) with
            | error e => rw [hdet] at ht; exact absurd ht (by simp)
            | ok result =>
                rw [hdet] at ht
                cases hrec : detectRelationshipsBatchGo classify np nd mc rest with
                | error e => rw [hrec] at ht; exact absurd ht (by simp)
                | ok t' =>
                    rw [hrec] at ht
                    simp only [Except.ok.injEq] at ht
                    rw [← ht]
                    simp only [List.mem_cons]
                    rcases List.mem_cons.mp hep with h0 | h'
                    · subst h0; exact Or.inl rfl
                    · exact Or.inr (ih t' hrec ep h' hid hskip)

theorem temporalSkipB_false_dates {nd ed : Option Int} {a b : Int}
    (h : temporalSkipB nd ed = false) (ha : nd = some a) (hb : ed = some b) : b ≤ a := by
  subst ha; subst hb
  simp only [temporalSkipB, decide_eq_false_iff_not, not_lt] at h
  exact h

theorem filteredGo_rel_sound (classify : Paper → Paper → LLMResponse) (np : Paper)
    (nd : Option Int) :
    ∀ (sps : List (Paper × ℚ)) (t : BatchTrace),
      batchFilteredGo classify np nd sps = .ok t →
      ∀ rel ∈ t.relationships,
        rel.source_paper_id = np.paper_id ∧ rel.relationship_type ∈ validTypes ∧
        rel.relationship_type ≠ "none" ∧
        ((selectiveThresholds.lookup rel.relationship_type).getD qPoint6) ≤ rel.confidence ∧
        ∃ sp ∈ sps, rel.target_paper_id = sp.1.paper_id ∧
          temporalSkipB nd (getPaperDate sp.1) = false := by
  intro sps
  induction sps with
  | nil =>
      intro t ht rel hrel
      simp only [batchFilteredGo, Except.ok.injEq] at ht
      rw [← ht] at hrel
      simp at hrel
  | cons sp rest ih =>
      intro t ht rel hrel
      obtain ⟨p0, s0⟩ := sp
      rw [batchFilteredGo] at ht
      cases hskip : temporalSkipB nd (getPaperDate p0) with
      | true =>
          rw [hskip] at ht
          simp only [if_true] at ht
          cases hrec : batchFilteredGo classify np nd rest with
          | error e => rw [hrec] at ht; exact absurd ht (by simp)
          | ok t' =>
              rw [hrec] at ht
              simp only [Except.ok.injEq] at ht
              rw [← ht] at hrel
              simp only at hrel
              obtain ⟨h1, h2, h3, h4, sp', hsp', h5⟩ := ih t' hrec rel hrel
              exact ⟨h1, h2, h3, h4, sp', List.mem_cons_of_mem _ hsp', h5⟩
      | false =>
          rw [hskip] at ht
          simp only [Bool.false_eq_true, if_false] at ht
          cases hdet : detectRelationship (classify np p0) with
          | error e => rw [hdet] at ht; exact absurd ht (by simp)
          | ok result =>
              rw [hdet] at ht
              cases hrec : batchFilteredGo classify np nd rest with
              | error e => rw [hrec] at ht; exact absurd ht (by simp)
              | ok t' =>
                  rw [hrec] at ht
                  simp only [Except.ok.injEq] at ht
                  rw [← ht] at hrel
                  simp only at hrel
                  by_cases hnone : result.relationship_type = "none"
                  · rw [if_pos hnone] at hrel
                    obtain ⟨h1, h2, h3, h4, sp', hsp', h5⟩ := ih t' hrec rel hrel
                    exact ⟨h1, h2, h3, h4, sp', List.mem_cons_of_mem _ hsp', h5⟩
                  · rw [if_neg hnone] at hrel
                    by_cases hconf :
                        ((selectiveThresholds.lookup result.relationship_type).getD qPoint6)
                          ≤ result.confidence
                    · rw [if_pos hconf] at hrel
                      rcases List.mem_cons.mp hrel with hrel0 | hrel'
                      · subst hrel0
                        refine ⟨rfl, detectRelationship_type_valid hdet, hnone, hconf,
                          (p0, s0), List.mem_cons_self _ _, rfl, hskip⟩
                      · obtain ⟨h1, h2, h3, h4, sp', hsp', h5⟩ := ih t' hrec rel hrel'
                        exact ⟨h1, h2, h3, h4, sp', List.mem_cons_of_mem _ hsp', h5⟩
                    · rw [if_neg hconf] at hrel
                      obtain ⟨h1, h2, h3, h4, sp', hsp', h5⟩ := ih t' hrec rel hrel
                      exact ⟨h1, h2, h3, h4, sp', List.mem_cons_of_mem _ hsp', h5⟩

theorem regenLostPair_stored_sound (classify : Paper → Paper → LLMResponse)
    (pairs : List (String × String)) (pa pb : Paper) (rel : Relationship)
    (h : regenLostPair classify pairs pa pb = .stored rel) :
    rel.source_paper_id = pa.paper_id ∧ rel.target_paper_id = pb.paper_id ∧
    rel.relationship_type ∈ validTypes ∧ rel.relationship_type ≠ "none" ∧
    qPoint6 ≤ rel.confidence ∧
    temporalSkipB (getPaperDate pa) (getPaperDate pb) = false := by
  rw [regenLostPair] at h
  by_cases hid : pa.paper_id = pb.paper_id
  · rw [if_pos hid] at h; exact absurd h (by simp)
  · rw [if_neg hid] at h
    by_cases hex : (pa.paper_id, pb.paper_id) ∈ pairs
    · rw [if_pos hex] at h; exact absurd h (by simp)
    · rw [if_neg hex] at h
      cases hskip : temporalSkipB (getPaperDate pa) (getPaperDate pb) with
      | true => rw [hskip] at h; simp only [if_true] at h; exact absurd h (by simp)
      | false =>
          rw [hskip] at h
          simp only [Bool.false_eq_true, if_false] at h
          cases hdet : detectRelationship (classify pa pb) with
          | error e => rw [hdet] at h; exact absurd h (by simp)
          | ok result =>
              rw [hdet] at h
              dsimp only at h
              by_cases hkeep : qPoint6 ≤ result.confidence ∧
                  result.relationship_type ≠ "none"
              · rw [if_pos hkeep] at h
                simp only [RegenLostOutcome.stored.injEq] at h
                rw [← h]
                exact ⟨rfl, rfl, detectRelationship_type_valid hdet, hkeep.2, hkeep.1, rfl⟩
              · rw [if_neg hkeep] at h; exact absurd h (by simp)

theorem guServiceDetect_no_write (classify : Paper → Paper → LLMResponse)
    (skipExisting existingFound : Bool) (sourcePaper targetPaper : Paper) :
    (guServiceDetect classify skipExisting existingFound sourcePaper targetPaper).2 = none := by
  cases skipExisting <;> rfl

theorem guJobDetect_no_write (classify : Paper → Paper → LLMResponse)
    (skipExisting existingFound : Bool) (sourcePaper targetPaper : Paper) :
    (guJobDetect classify skipExisting existingFound sourcePaper targetPaper).2 = none := by
  cases skipExisting <;> rfl

theorem dbKeys_docSet (db : RelDB) (k : String) (v : StoredDoc) :
    dbKeys (docSet db k v) = if k ∈ dbKeys db then dbKeys db else dbKeys db ++ [k] := by
  unfold docSet dbKeys
  by_cases h : db.any (fun kv => kv.1 = k)
  · have hmem : k ∈ db.map (·.1) := by
      simp only [List.any_eq_true, decide_eq_true_eq] at h
      obtain ⟨kv, hkv, he⟩ := h
      exact he ▸ List.mem_map_of_mem _ hkv
    rw [if_pos h, if_pos hmem, List.map_map]
    apply List.map_congr_left
    intro kv _
    by_cases he : kv.1 = k
    · simp [he]
    · simp [he]
  · have hmem : k ∉ db.map (·.1) := by
      intro hk
      obtain ⟨kv, hkv, he⟩ := List.mem_map.mp hk
      exact h (List.any_eq_true.mpr ⟨kv, hkv, by simp [he]⟩)
    rw [if_neg h, if_neg hmem]
    simp

theorem mem_dbKeys_docSet (db : RelDB) (k : String) (v : StoredDoc) :
    k ∈ dbKeys (docSet db k v) := by
  rw [dbKeys_docSet]
  by_cases h : k ∈ dbKeys db
  · rw [if_pos h]; exact h
  · rw [if_neg h]; simp

theorem dbKeys_docSet_of_mem {db : RelDB} {k : String} (v : StoredDoc)
    (h : k ∈ dbKeys db) : dbKeys (docSet db k v) = dbKeys db := by
  rw [dbKeys_docSet, if_pos h]

theorem dbKeys_store_mono {db : RelDB} {k : String} (rel : Relationship) (now : Int)
    (h : k ∈ dbKeys db) : k ∈ dbKeys (storeRelationship db rel now) := by
  rw [storeRelationship, dbKeys_docSet]
  split
  · exact h
  · exact List.mem_append_left _ h

theorem relId_mem_store (db : RelDB) (rel : Relationship) (now : Int) :
    relationshipId rel.source_paper_id rel.target_paper_id rel.relationship_type ∈
      dbKeys (storeRelationship db rel now) :=
  mem_dbKeys_docSet _ _ _

theorem dbKeys_storeAll_mono {k : String} (now : Int) :
    ∀ (rels : List Relationship) (db : RelDB), k ∈ dbKeys db →
      k ∈ dbKeys (storeAll db rels now) := by
  intro rels
  induction rels with
  | nil => intro db h; exact h
  | cons r rest ih =>
      intro db h
      exact ih (storeRelationship db r now) (dbKeys_store_mono r now h)

theorem relId_mem_storeAll (now : Int) :
    ∀ (rels : List Relationship) (db : RelDB), ∀ rel ∈ rels,
      relationshipId rel.source_paper_id rel.target_paper_id rel.relationship_type ∈
        dbKeys (storeAll db rels now) := by
  intro rels
  induction rels with
  | nil => intro db rel h; simp at h
  | cons r rest ih =>
      intro db rel hrel
      rcases List.mem_cons.mp hrel with h0 | h'
      · subst h0
        exact dbKeys_storeAll_mono now rest _ (relId_mem_store db rel now)
      · exact ih _ rel h'

theorem dbKeys_storeAll_of_all_mem (now : Int) :
    ∀ (rels : List Relationship) (db : RelDB),
      (∀ rel ∈ rels, relationshipId rel.source_paper_id rel.target_paper_id
        rel.relationship_type ∈ dbKeys db) →
      dbKeys (storeAll db rels now) = dbKeys db := by
  intro rels
  induction rels with
  | nil => intro db _; rfl
  | cons r rest ih =>
      intro db hmem
      have h0 := hmem r (List.mem_cons_self _ _)
      have hstep : dbKeys (storeRelationship db r now) = dbKeys db :=
        dbKeys_docSet_of_mem _ h0
      calc dbKeys (storeAll (storeRelationship db r now) rest now)
      _ = dbKeys (storeRelationship db r now) := by
            apply ih
            intro rel hrel
            rw [hstep]
            exact hmem rel (List.mem_cons_of_mem _ hrel)
      _ = dbKeys db := hstep

theorem insertDescBy_perm {α : Type} (key : α → Int) (x : α) :
    ∀ l : List α, (insertDescBy key x l).Perm (x :: l) := by
  intro l
  induction l with
  | nil => exact List.Perm.refl _
  | cons y ys ih =>
      rw [insertDescBy]
      by_cases h : key y < key x
      · rw [if_pos h]
      · rw [if_neg h]
        exact (List.Perm.cons y ih).trans (List.Perm.swap x y ys)

theorem sortByKeyDesc_perm {α : Type} (key : α → Int) :
    ∀ l : List α, (sortByKeyDesc key l).Perm l := by
  intro l
  induction l with
  | nil => exact List.Perm.refl _
  | cons x xs ih =>
      rw [sortByKeyDesc]
      exact (insertDescBy_perm key x _).trans (List.Perm.cons x ih)

theorem insertDescBy_pairwise {α : Type} (key : α → Int) (x : α) :
    ∀ l : List α, List.Pairwise (fun a b => key b ≤ key a) l →
      List.Pairwise (fun a b => key b ≤ key a) (insertDescBy key x l) := by
  intro l
  induction l with
  | nil => intro _; simp [insertDescBy]
  | cons y ys ih =>
      intro hp
      rw [List.pairwise_cons] at hp
      obtain ⟨hy, hys⟩ := hp
      rw [insertDescBy]
      by_cases h : key y < key x
      · rw [if_pos h]
        refine List.pairwise_cons.mpr ⟨?_, List.pairwise_cons.mpr ⟨hy, hys⟩⟩
        intro z hz
        rcases List.mem_cons.mp hz with h0 | h'
        · subst h0; exact le_of_lt h
        · exact le_trans (hy z h') (le_of_lt h)
      · rw [if_neg h]
        refine List.pairwise_cons.mpr ⟨?_, ih hys⟩
        intro z hz
        have hz' : z ∈ x :: ys := (insertDescBy_perm key x ys).mem_iff.mp hz
        rcases List.mem_cons.mp hz' with h0 | h'
        · subst h0; exact le_of_not_lt h
        · exact hy z h'

theorem sortByKeyDesc_pairwise {α : Type} (key : α → Int) :
    ∀ l : List α, List.Pairwise (fun a b => key b ≤ key a) (sortByKeyDesc key l) := by
  intro l
  induction l with
  | nil => simp [sortByKeyDesc]
  | cons x xs ih =>
      rw [sortByKeyDesc]
      exact insertDescBy_pairwise key x _ ih

theorem sortPapersNewestFirst_perm (papers : List Paper) :
    (sortPapersNewestFirst papers).Perm papers := by
  unfold sortPapersNewestFirst
  have h := (sortByKeyDesc_perm sweepSortKey
    (papers.map (fun p => (p, getPaperDate p)))).map (fun x : Paper × Option Int => x.1)
  rw [List.map_map] at h
  have h2 : papers.map ((fun x : Paper × Option Int => x.1) ∘ fun p =>
      (p, getPaperDate p)) = papers := by
    rw [show ((fun x : Paper × Option Int => x.1) ∘ fun p => (p, getPaperDate p)) =
      id from rfl, List.map_id]
  rwa [h2] at h

theorem sortPapersNewestFirst_pairwise (papers : List Paper) :
    List.Pairwise (fun p q => paperKey q ≤ paperKey p) (sortPapersNewestFirst papers) := by
  unfold sortPapersNewestFirst
  rw [List.pairwise_map]
  have hsnd : ∀ x ∈ sortByKeyDesc sweepSortKey
      (papers.map (fun p => (p, getPaperDate p))), x.2 = getPaperDate x.1 := by
    intro x hx
    have hx' := (sortByKeyDesc_perm sweepSortKey _).mem_iff.mp hx
    obtain ⟨p, _, hp⟩ := List.mem_map.mp hx'
    rw [← hp]
  have hsorted := sortByKeyDesc_pairwise sweepSortKey
    (papers.map (fun p => (p, getPaperDate p)))
  refine List.Pairwise.imp_of_mem ?_ hsorted
  intro a b ha hb hab
  have hka : sweepSortKey a = paperKey a.1 := by
    rw [sweepSortKey, paperKey, hsnd a ha]
  have hkb : sweepSortKey b = paperKey b.1 := by
    rw [sweepSortKey, paperKey, hsnd b hb]
  rw [hka, hkb] at hab
  exact hab

theorem triangle_step (n : Nat) : n + n * (n - 1) / 2 = (n + 1) * n / 2 := by
  cases n with
  | zero => rfl
  | succ m =>
      have h : (m + 1 + 1) * (m + 1) = (m + 1) * m + 2 * (m + 1) := by ring
      rw [Nat.succ_sub_one, h, Nat.add_comm ((m + 1) * m) (2 * (m + 1)),
        Nat.mul_add_div (by omega : 0 < 2)]

theorem regenAllGo_counts (classify : Paper → Paper → LLMResponse) :
    ∀ S : List Paper,
      List.Pairwise (fun p q => paperKey q ≤ paperKey p) S →
      (∀ p ∈ S, (getPaperDate p).isSome) →
      (S.map Paper.paper_id).Nodup →
      (∀ p q : Paper, respondsB (classify p q) = true) →
      (regenerateAllGo classify S).classifiedPairs.length =
          S.length * (S.length - 1) / 2 ∧
        (regenerateAllGo classify S).temporalSkips = 0 ∧
        (regenerateAllGo classify S).paperErrors = 0 := by
  intro S
  induction S with
  | nil => intro _ _ _ _; exact ⟨rfl, rfl, rfl⟩
  | cons p rest ih =>
      intro hpw hdates hids hresp
      rw [List.pairwise_cons] at hpw
      obtain ⟨hp, hpw'⟩ := hpw
      rw [List.map_cons, List.nodup_cons] at hids
      obtain ⟨hid0, hids'⟩ := hids
      have hrec := ih hpw' (fun q hq => hdates q (List.mem_cons_of_mem _ hq)) hids' hresp
      by_cases hempty : rest.isEmpty
      · have : rest = [] := List.isEmpty_iff.mp hempty
        subst this
        rw [regenerateAllGo]
        simp only [List.isEmpty_nil, if_true]
        exact ⟨by simp [regenerateAllGo], rfl, rfl⟩
      · have hid : ∀ ep ∈ rest, p.paper_id ≠ ep.paper_id := by
          intro ep hep he
          exact hid0 (he ▸ List.mem_map_of_mem Paper.paper_id hep)
        have hskip : ∀ ep ∈ rest, temporalSkipB (getPaperDate p) (getPaperDate ep) = false := by
          intro ep hep
          obtain ⟨dp, hdp⟩ := Option.isSome_iff_exists.mp
            (hdates p (List.mem_cons_self _ _))
          obtain ⟨de, hde⟩ := Option.isSome_iff_exists.mp
            (hdates ep (List.mem_cons_of_mem _ hep))
          have hk := hp ep hep
          rw [paperKey, paperKey, hdp, hde] at hk
          simp only [Option.getD_some] at hk
          rw [hdp, hde, temporalSkipB]
          simp only [decide_eq_false_iff_not, not_lt]
          exact hk
        obtain ⟨bt, hbt⟩ := batchGo_ok_of_responds classify p (getPaperDate p) qPoint6 rest
          (fun ep _ => hresp p ep)
        obtain ⟨hpairs, hskips⟩ := batchGo_pairs_eq classify p (getPaperDate p) qPoint6
          rest bt hbt hid hskip
        rw [regenerateAllGo]
        rw [if_neg (by simpa using hempty)]
        rw [show detectRelationshipsBatch classify p rest qPoint6 =
          detectRelationshipsBatchGo classify p (getPaperDate p) qPoint6 rest from rfl, hbt]
        simp only
        refine ⟨?_, ?_, hrec.2.2⟩
        · rw [List.length_append, hpairs, List.length_map, hrec.1]
          have := triangle_step rest.length
          simpa [List.length_cons, Nat.succ_sub_one] using this
        · rw [hskips, hrec.2.1]

theorem regenAllGo_pairs_subset (classify : Paper → Paper → LLMResponse)
    (x : Paper) (rest : List Paper) :
    ∀ pr ∈ (regenerateAllGo classify rest).classifiedPairs,
      pr ∈ (regenerateAllGo classify (x :: rest)).classifiedPairs := by
  intro pr hpr
  rw [regenerateAllGo]
  by_cases hempty : rest.isEmpty
  · rw [if_pos hempty]; exact hpr
  · rw [if_neg hempty]
    cases hb : detectRelationshipsBatch classify x rest qPoint6 with
    | error e => exact hpr
    | ok bt => exact List.mem_append_right _ hpr

theorem regenAllGo_pairs_cover (classify : Paper → Paper → LLMResponse) :
    ∀ S : List Paper,
      List.Pairwise (fun p q => paperKey q ≤ paperKey p) S →
      (∀ p ∈ S, (getPaperDate p).isSome) →
      (S.map Paper.paper_id).Nodup →
      (∀ p q : Paper, respondsB (classify p q) = true) →
      ∀ (l₁ : List Paper) (p : Paper) (l₂ : List Paper), S = l₁ ++ p :: l₂ →
        ∀ q ∈ l₂, (p.paper_id, q.paper_id) ∈
          (regenerateAllGo classify S).classifiedPairs := by
  intro S
  induction S with
  | nil =>
      intro _ _ _ _ l₁ p l₂ hS q hq
      exact absurd hS (by simp)
  | cons x rest ih =>
      intro hpw hdates hids hresp l₁ p l₂ hS q hq
      rw [List.pairwise_cons] at hpw
      obtain ⟨hx, hpw'⟩ := hpw
      rw [List.map_cons, List.nodup_cons] at hids
      obtain ⟨hid0, hids'⟩ := hids
      cases l₁ with
      | nil =>
          simp only [List.nil_append, List.cons.injEq] at hS
          obtain ⟨hxp, hrest⟩ := hS
          subst hxp
          rw [← hrest] at hq
          have hid : x.paper_id ≠ q.paper_id := by
            intro he
            exact hid0 (he ▸ List.mem_map_of_mem Paper.paper_id hq)
          have hskip : temporalSkipB (getPaperDate x) (getPaperDate q) = false := by
            obtain ⟨dp, hdp⟩ := Option.isSome_iff_exists.mp
              (hdates x (List.mem_cons_self _ _))
            obtain ⟨de, hde⟩ := Option.isSome_iff_exists.mp
              (hdates q (List.mem_cons_of_mem _ hq))
            have hk := hx q hq
            rw [paperKey, paperKey, hdp, hde] at hk
            simp only [Option.getD_some] at hk
            rw [hdp, hde, temporalSkipB]
            simp only [decide_eq_false_iff_not, not_lt]
            exact hk
          obtain ⟨bt, hbt⟩ := batchGo_ok_of_responds classify x (getPaperDate x) qPoint6 rest
            (fun ep _ => hresp x ep)
          have hmem := batchGo_classified_mem classify x (getPaperDate x) qPoint6 rest bt hbt
            q hq hid hskip
          rw [regenerateAllGo]
          have hne : ¬rest.isEmpty := by
            cases rest with
            | nil => simp at hq
            | cons a b => simp
          rw [if_neg hne]
          rw [show detectRelationshipsBatch classify x rest qPoint6 =
            detectRelationshipsBatchGo classify x (getPaperDate x) qPoint6 rest from rfl, hbt]
          exact List.mem_append_left _ hmem
      | cons y l₁' =>
          simp only [List.cons_append, List.cons.injEq] at hS
          obtain ⟨hxy, hrest⟩ := hS
          have hmem := ih hpw' (fun r hr => hdates r (List.mem_cons_of_mem _ hr))
            hids' hresp l₁' p l₂ hrest q hq
          exact regenAllGo_pairs_subset classify x rest _ hmem

theorem violationOf_eq_some_iff (papers : List Paper) (rel : RelRecord) (v : ViolationInfo) :
    violationOf papers rel = some v ↔
    ∃ sp tp sd td, papersMapGet papers rel.source_paper_id = some sp ∧
      papersMapGet papers rel.target_paper_id = some tp ∧
      getPaperDate sp = some sd ∧ getPaperDate tp = some td ∧ sd < td ∧
      v = ⟨rel.relationship_id, rel.source_paper_id, rel.target_paper_id,
            rel.relationship_type, rel.confidence, rel.evidence, rel.description⟩ := by
  constructor
  · intro h
    unfold violationOf at h
    cases hsp : papersMapGet papers rel.source_paper_id with
    | none => rw [hsp] at h; exact absurd h (by simp)
    | some sp =>
        rw [hsp] at h
        cases htp : papersMapGet papers rel.target_paper_id with
        | none => rw [htp] at h; exact absurd h (by simp)
        | some tp =>
            rw [htp] at h
            dsimp only at h
            cases hsd : getPaperDate sp with
            | none => rw [hsd] at h; exact absurd h (by simp)
            | some sd =>
                rw [hsd] at h
                cases htd : getPaperDate tp with
                | none => rw [htd] at h; exact absurd h (by simp)
                | some td =>
                    rw [htd] at h
                    dsimp only at h
                    by_cases hlt : sd < td
                    · rw [if_pos hlt] at h
                      simp only [Option.some.injEq] at h
                      exact ⟨sp, tp, sd, td, rfl, rfl, hsd, htd, hlt, h.symm⟩
                    · rw [if_neg hlt] at h; exact absurd h (by simp)
  · rintro ⟨sp, tp, sd, td, hsp, htp, hsd, htd, hlt, rfl⟩
    unfold violationOf
    rw [hsp, htp]
    dsimp only
    rw [hsd, htd]
    dsimp only
    rw [if_pos hlt]

theorem violationOf_rid {papers : List Paper} {rel : RelRecord} {v : ViolationInfo}
    (h : violationOf papers rel = some v) :
    v.relationship_id = rel.relationship_id ∧ v.source_id = rel.source_paper_id ∧
    v.target_id = rel.target_paper_id ∧ v.relationship_type = rel.relationship_type ∧
    v.confidence = rel.confidence ∧ v.evidence = rel.evidence := by
  obtain ⟨sp, tp, sd, td, _, _, _, _, _, hv⟩ := (violationOf_eq_some_iff papers rel v).mp h
  subst hv
  exact ⟨rfl, rfl, rfl, rfl, rfl, rfl⟩

theorem violationOf_reversedRecord {papers : List Paper}
    {v : ViolationInfo} (nid : String)
    (hv : ∃ rel, violationOf papers rel = some v) :
    violationOf papers (reversedRecord v nid) = none := by
  obtain ⟨rel, hrel⟩ := hv
  obtain ⟨sp, tp, sd, td, hsp, htp, hsd, htd, hlt, hveq⟩ :=
    (violationOf_eq_some_iff papers rel v).mp hrel
  subst hveq
  unfold violationOf reversedRecord
  dsimp only
  rw [htp, hsp]
  dsimp only
  rw [htd, hsd]
  dsimp only
  rw [if_neg (by omega : ¬td < sd)]

theorem mem_deleteById {st : List RelRecord} {rid : String} {r : RelRecord}
    (h : r ∈ deleteById st rid) : r ∈ st ∧ r.relationship_id ≠ rid := by
  rw [deleteById, List.mem_filter] at h
  exact ⟨h.1, by simpa using h.2⟩

theorem deleteById_mem {st : List RelRecord} {rid : String} {r : RelRecord}
    (h1 : r ∈ st) (h2 : r.relationship_id ≠ rid) : r ∈ deleteById st rid := by
  rw [deleteById, List.mem_filter]
  exact ⟨h1, by simpa using h2⟩

theorem foldRev_mem_cases :
    ∀ (pairs : List (ViolationInfo × String)) (st : List RelRecord) (r : RelRecord),
      r ∈ pairs.foldl
        (fun st vn => deleteById st vn.1.relationship_id ++ [reversedRecord vn.1 vn.2]) st →
      (r ∈ st ∧ ∀ p ∈ pairs, r.relationship_id ≠ p.1.relationship_id) ∨
        ∃ p ∈ pairs, r = reversedRecord p.1 p.2 := by
  intro pairs
  induction pairs with
  | nil => intro st r h; exact Or.inl ⟨h, by simp⟩
  | cons p₀ rest ih =>
      intro st r h
      rw [List.foldl_cons] at h
      rcases ih _ r h with ⟨hst', hne⟩ | ⟨p, hp, he⟩
      · rcases List.mem_append.mp hst' with hdel | hrev
        · obtain ⟨hmem, hne0⟩ := mem_deleteById hdel
          refine Or.inl ⟨hmem, ?_⟩
          intro p hp
          rcases List.mem_cons.mp hp with h0 | h'
          · subst h0; exact hne0
          · exact hne p h'
        · rw [List.mem_singleton] at hrev
          exact Or.inr ⟨p₀, List.mem_cons_self _ _, hrev⟩
      · exact Or.inr ⟨p, List.mem_cons_of_mem _ hp, he⟩

theorem foldRev_preserve :
    ∀ (pairs : List (ViolationInfo × String)) (st : List RelRecord) (r : RelRecord),
      r ∈ st → (∀ p ∈ pairs, r.relationship_id ≠ p.1.relationship_id) →
      r ∈ pairs.foldl
        (fun st vn => deleteById st vn.1.relationship_id ++ [reversedRecord vn.1 vn.2]) st := by
  intro pairs
  induction pairs with
  | nil => intro st r h _; exact h
  | cons p₀ rest ih =>
      intro st r h hne
      rw [List.foldl_cons]
      refine ih _ r ?_ (fun p hp => hne p (List.mem_cons_of_mem _ hp))
      exact List.mem_append_left _
        (deleteById_mem h (hne p₀ (List.mem_cons_self _ _)))

theorem foldRev_adds :
    ∀ (pairs : List (ViolationInfo × String)) (st : List RelRecord)
      (v : ViolationInfo) (nid : String),
      (v, nid) ∈ pairs → (∀ p ∈ pairs, nid ≠ p.1.relationship_id) →
      reversedRecord v nid ∈ pairs.foldl
        (fun st vn => deleteById st vn.1.relationship_id ++ [reversedRecord vn.1 vn.2]) st := by
  intro pairs
  induction pairs with
  | nil => intro st v nid h _; simp at h
  | cons p₀ rest ih =>
      intro st v nid hmem hne
      rw [List.foldl_cons]
      rcases List.mem_cons.mp hmem with h0 | h'
      · have he : p₀ = (v, nid) := h0.symm
        subst he
        refine foldRev_preserve rest _ _ ?_ ?_
        · exact List.mem_append_right _ (List.mem_singleton_self _)
        · intro p hp
          exact hne p (List.mem_cons_of_mem _ hp)
      · exact ih _ v nid h' (fun p hp => hne p (List.mem_cons_of_mem _ hp))

theorem foldRev_keeps_clear :
    ∀ (pairs : List (ViolationInfo × String)) (st : List RelRecord) (i : String),
      (∀ r ∈ st, r.relationship_id ≠ i) → (∀ p ∈ pairs, p.2 ≠ i) →
      ∀ r ∈ pairs.foldl
        (fun st vn => deleteById st vn.1.relationship_id ++ [reversedRecord vn.1 vn.2]) st,
        r.relationship_id ≠ i := by
  intro pairs
  induction pairs with
  | nil => intro st i hst _ r hr; exact hst r hr
  | cons p₀ rest ih =>
      intro st i hst hp r hr
      rw [List.foldl_cons] at hr
      refine ih _ i ?_ (fun p hp' => hp p (List.mem_cons_of_mem _ hp')) r hr
      intro r' hr'
      rcases List.mem_append.mp hr' with hdel | hrev
      · exact hst r' (mem_deleteById hdel).1
      · rw [List.mem_singleton] at hrev
        subst hrev
        exact hp p₀ (List.mem_cons_self _ _)

theorem foldRev_removes :
    ∀ (pairs : List (ViolationInfo × String)) (st : List RelRecord)
      (v : ViolationInfo) (nid : String),
      (v, nid) ∈ pairs → (∀ p ∈ pairs, p.2 ≠ v.relationship_id) →
      ∀ r ∈ pairs.foldl
        (fun st vn => deleteById st vn.1.relationship_id ++ [reversedRecord vn.1 vn.2]) st,
        r.relationship_id ≠ v.relationship_id := by
  intro pairs
  induction pairs with
  | nil => intro st v nid h _; simp at h
  | cons p₀ rest ih =>
      intro st v nid hmem hne r hr
      rw [List.foldl_cons] at hr
      rcases List.mem_cons.mp hmem with h0 | h'
      · have he : p₀ = (v, nid) := h0.symm
        subst he
        refine foldRev_keeps_clear rest _ _ ?_
          (fun p hp => hne p (List.mem_cons_of_mem _ hp)) r hr
        intro r' hr'
        rcases List.mem_append.mp hr' with hdel | hrev
        · exact (mem_deleteById hdel).2
        · rw [List.mem_singleton] at hrev
          subst hrev
          exact hne (v, nid) (List.mem_cons_self _ _)
      · exact ih _ v nid h' (fun p hp => hne p (List.mem_cons_of_mem _ hp)) r hr

theorem foldDel_subset :
    ∀ (ds : List String) (st : List RelRecord) (r : RelRecord),
      r ∈ ds.foldl (fun st rid => deleteById st rid) st → r ∈ st := by
  intro ds
  induction ds with
  | nil => intro st r h; exact h
  | cons d rest ih =>
      intro st r h
      rw [List.foldl_cons] at h
      exact (mem_deleteById (ih _ r h)).1

theorem foldDel_preserve :
    ∀ (ds : List String) (st : List RelRecord) (r : RelRecord),
      r ∈ st → (∀ d ∈ ds, r.relationship_id ≠ d) →
      r ∈ ds.foldl (fun st rid => deleteById st rid) st := by
  intro ds
  induction ds with
  | nil => intro st r h _; exact h
  | cons d rest ih =>
      intro st r h hne
      rw [List.foldl_cons]
      exact ih _ r (deleteById_mem h (hne d (List.mem_cons_self _ _)))
        (fun d' hd' => hne d' (List.mem_cons_of_mem _ hd'))

theorem findBidirectionalGo_subset :
    ∀ (l : List RelRecord) (seen : List (String × String)) (i : String),
      i ∈ findBidirectionalGo l seen → ∃ r ∈ l, i = r.relationship_id := by
  intro l
  induction l with
  | nil => intro seen i h; simp [findBidirectionalGo] at h
  | cons x rest ih =>
      intro seen i h
      rw [findBidirectionalGo] at h
      by_cases hp : normPair x.source_paper_id x.target_paper_id ∈ seen
      · rw [if_pos hp] at h
        rcases List.mem_cons.mp h with h0 | h'
        · exact ⟨x, List.mem_cons_self _ _, h0⟩
        · obtain ⟨r, hr, he⟩ := ih seen i h'
          exact ⟨r, List.mem_cons_of_mem _ hr, he⟩
      · rw [if_neg hp] at h
        obtain ⟨r, hr, he⟩ := ih _ i h
        exact ⟨r, List.mem_cons_of_mem _ hr, he⟩

theorem findBidirectional_subset (rels : List RelRecord) :
    ∀ i ∈ findBidirectionalContradictions rels, ∃ r ∈ rels, i = r.relationship_id := by
  intro i h
  obtain ⟨r, hr, he⟩ := findBidirectionalGo_subset _ [] i h
  exact ⟨r, (List.mem_filter.mp hr).1, he⟩

theorem findBidirectionalGo_mem_iff :
    ∀ (l : List RelRecord) (seen : List (String × String)),
      (l.map (·.relationship_id)).Nodup →
      ∀ (l₁ : List RelRecord) (r : RelRecord) (l₂ : List RelRecord),
        l = l₁ ++ r :: l₂ →
        (r.relationship_id ∈ findBidirectionalGo l seen ↔
          normPair r.source_paper_id r.target_paper_id ∈ seen ∨
            ∃ r' ∈ l₁, normPair r'.source_paper_id r'.target_paper_id =
              normPair r.source_paper_id r.target_paper_id) := by
  intro l
  induction l with
  | nil =>
      intro seen _ l₁ r l₂ hS
      exact absurd hS (by simp)
  | cons x rest ih =>
      intro seen hnodup l₁ r l₂ hS
      rw [List.map_cons, List.nodup_cons] at hnodup
      obtain ⟨hx, hnodup'⟩ := hnodup
      cases l₁ with
      | nil =>
          simp only [List.nil_append, List.cons.injEq] at hS
          obtain ⟨hxr, hrest⟩ := hS
          subst hxr
          rw [findBidirectionalGo]
          by_cases hp : normPair x.source_paper_id x.target_paper_id ∈ seen
          · rw [if_pos hp]
            constructor
            · intro _; exact Or.inl hp
            · intro _; exact List.mem_cons_self _ _
          · rw [if_neg hp]
            constructor
            · intro hmem
              obtain ⟨r', hr', he⟩ := findBidirectionalGo_subset rest _ _ hmem
              exact absurd (he ▸ List.mem_map_of_mem (·.relationship_id) hr') hx
            · rintro (h | ⟨r', hr', _⟩)
              · exact absurd h hp
              · simp at hr'
      | cons y l₁' =>
          simp only [List.cons_append, List.cons.injEq] at hS
          obtain ⟨hxy, hrest⟩ := hS
          subst hxy
          have hrne : r.relationship_id ≠ x.relationship_id := by
            intro he
            have : r ∈ rest := hrest ▸ List.mem_append_right _ (List.mem_cons_self _ _)
            exact hx (he ▸ List.mem_map_of_mem (·.relationship_id) this)
          rw [findBidirectionalGo]
          by_cases hp : normPair x.source_paper_id x.target_paper_id ∈ seen
          · rw [if_pos hp]
            constructor
            · intro hmem
              rcases List.mem_cons.mp hmem with h0 | hmem'
              · exact absurd h0 hrne
              · rcases (ih seen hnodup' l₁' r l₂ hrest).mp hmem' with h | ⟨r', hr', he⟩
                · exact Or.inl h
                · exact Or.inr ⟨r', List.mem_cons_of_mem _ hr', he⟩
            · intro h
              refine List.mem_cons.mpr (Or.inr ?_)
              apply (ih seen hnodup' l₁' r l₂ hrest).mpr
              rcases h with h | ⟨r', hr', he⟩
              · exact Or.inl h
              · rcases List.mem_cons.mp hr' with h0 | h'
                · subst h0; exact Or.inl (he ▸ hp)
                · exact Or.inr ⟨r', h', he⟩
          · rw [if_neg hp]
            constructor
            · intro hmem
              rcases (ih (normPair x.source_paper_id x.target_paper_id :: seen)
                  hnodup' l₁' r l₂ hrest).mp hmem with h | ⟨r', hr', he⟩
              · rcases List.mem_cons.mp h with h0 | h1
                · exact Or.inr ⟨x, List.mem_cons_self _ _, h0.symm⟩
                · exact Or.inl h1
              · exact Or.inr ⟨r', List.mem_cons_of_mem _ hr', he⟩
            · intro h
              apply (ih (normPair x.source_paper_id x.target_paper_id :: seen)
                hnodup' l₁' r l₂ hrest).mpr
              rcases h with h | ⟨r', hr', he⟩
              · exact Or.inl (List.mem_cons_of_mem _ h)
              · rcases List.mem_cons.mp hr' with h0 | h'
                · subst h0; exact Or.inl (List.mem_cons.mpr (Or.inl he.symm))
                · exact Or.inr ⟨r', h', he⟩

theorem length_filter_mono {α : Type} (l : List α) (p q : α → Bool)
    (h : ∀ a ∈ l, p a = true → q a = true) :
    (l.filter p).length ≤ (l.filter q).length := by
  induction l with
  | nil => simp
  | cons a rest ih =>
      have ih' := ih (fun b hb => h b (List.mem_cons_of_mem _ hb))
      by_cases hpa : p a = true
      · rw [List.filter_cons_of_pos hpa, List.filter_cons_of_pos
          (h a (List.mem_cons_self _ _) hpa)]
        simpa using ih'
      · rw [List.filter_cons_of_neg (by simpa using hpa)]
        by_cases hqa : q a = true
        · rw [List.filter_cons_of_pos hqa]
          refine le_trans ih' ?_
          simp
        · rw [List.filter_cons_of_neg (by simpa using hqa)]
          exact ih'

theorem length_filter_lt {α : Type} {l : List α} {p : α → Bool} {x : α}
    (hx : x ∈ l) (hp : p x = false) : (l.filter p).length < l.length := by
  induction l with
  | nil => simp at hx
  | cons a rest ih =>
      rcases List.mem_cons.mp hx with h0 | h'
      · subst h0
        rw [List.filter_cons_of_neg (by simpa using hp)]
        have := List.length_filter_le p rest
        simp only [List.length_cons]
        omega
      · by_cases hpa : p a = true
        · rw [List.filter_cons_of_pos hpa]
          simp only [List.length_cons]
          have := ih h'
          omega
        · rw [List.filter_cons_of_neg (by simpa using hpa)]
          simp only [List.length_cons]
          have := ih h'
          omega

theorem pruneCalls_filter (p t1 : ℚ) (hist : List ℚ) (hpt : p ≤ t1) :
    pruneCalls t1 (hist.filter (fun r => decide (p - 60 < r))) =
      hist.filter (fun r => decide (t1 - 60 < r)) := by
  rw [pruneCalls, List.filter_filter]
  apply List.filter_congr
  intro a _
  by_cases h : t1 - 60 < a
  · have h1 : p - 60 < a := by linarith
    have h2 : t1 - a < 60 := by linarith
    simp [h, h1, h2]
  · have h2 : ¬(t1 - a < 60) := by intro hc; exact h (by linarith)
    simp [h, h2]

theorem windowCount_append (h1 h2 : List ℚ) (T : ℚ) :
    windowCount (h1 ++ h2) T = windowCount h1 T + windowCount h2 T := by
  rw [windowCount, windowCount, windowCount, List.filter_append, List.length_append]

theorem windowCount_le_filter (hist : List ℚ) (T c : ℚ) (hcT : c ≤ T) :
    windowCount hist T ≤ (hist.filter (fun r => decide (c - 60 < r))).length := by
  rw [windowCount]
  apply length_filter_mono
  intro a _ ha
  simp only [Bool.and_eq_true, decide_eq_true_eq] at ha
  simp only [decide_eq_true_eq]
  linarith [ha.1, ha.2]

theorem limiter_step (maxCalls : Nat) (hmax : 1 ≤ maxCalls) (hist calls : List ℚ)
    (tPrev : ℚ) (a : AcquireTimes)
    (hInv : limiterInv maxCalls hist calls tPrev)
    (hAcq : acquireOKb maxCalls calls tPrev a = true) :
    limiterInv maxCalls (hist ++ [a.t3]) (waitIfNeeded maxCalls calls a) a.t3 := by
  obtain ⟨⟨p, hpt, hcalls⟩, hlen, hwin⟩ := hInv
  rw [acquireOKb] at hAcq
  simp only [Bool.and_eq_true, decide_eq_true_eq] at hAcq
  obtain ⟨⟨⟨h1, h2⟩, h3⟩, hguard⟩ := hAcq
  have hpr : pruneCalls a.t1 calls = hist.filter (fun r => decide (a.t1 - 60 < r)) := by
    rw [hcalls]
    exact pruneCalls_filter p a.t1 hist (le_trans hpt h1)
  rw [waitIfNeeded]
  by_cases hcap : maxCalls ≤ (pruneCalls a.t1 calls).length
  · rw [if_pos hcap]
    rw [if_pos hcap] at hguard
    simp only [decide_eq_true_eq] at hguard
    have hne : pruneCalls a.t1 calls ≠ [] := by
      intro h0
      rw [h0] at hcap
      simp at hcap
      omega
    have hold_mem : (pruneCalls a.t1 calls).headD 0 ∈ pruneCalls a.t1 calls := by
      cases hl : pruneCalls a.t1 calls with
      | nil => exact absurd hl hne
      | cons b bs => simp
    have hq1 : (0 : ℚ) < qPoint1 := by rw [qPoint1_eq]; norm_num
    have hpred : (fun t => decide (a.t2 - t < 60)) ((pruneCalls a.t1 calls).headD 0)
        = false := by
      simp only [decide_eq_false_iff_not, not_lt]
      linarith
    have hlen2 : (pruneCalls a.t2 (pruneCalls a.t1 calls)).length <
        (pruneCalls a.t1 calls).length :=
      length_filter_lt hold_mem hpred
    have hlenpr : (pruneCalls a.t1 calls).length ≤ calls.length := by
      rw [pruneCalls]
      exact List.length_filter_le _ _
    have hpr2 : pruneCalls a.t2 (pruneCalls a.t1 calls) =
        hist.filter (fun r => decide (a.t2 - 60 < r)) := by
      rw [hpr]
      exact pruneCalls_filter a.t1 a.t2 hist h2
    refine ⟨⟨a.t2, h3, ?_⟩, ?_, ?_⟩
    · rw [List.filter_append, hpr2]
      have ht3 : decide (a.t2 - 60 < a.t3) = true := by
        simp only [decide_eq_true_eq]
        linarith
      simp [ht3]
    · rw [List.length_append]
      simp only [List.length_singleton]
      omega
    · intro T
      rw [windowCount_append]
      by_cases hT : T - 60 < a.t3 ∧ a.t3 ≤ T
      · have hc1 : windowCount [a.t3] T ≤ 1 := by
          rw [windowCount]
          exact le_trans (List.length_filter_le _ _) (by simp)
        have hc2 : windowCount hist T ≤
            (hist.filter (fun r => decide (a.t2 - 60 < r))).length := by
          apply windowCount_le_filter
          linarith [hT.2]
        rw [← hpr2] at hc2
        omega
      · have hc1 : windowCount [a.t3] T = 0 := by
          rw [windowCount, List.length_eq_zero]
          rw [List.filter_eq_nil_iff]
          intro b hb
          rw [List.mem_singleton] at hb
          subst hb
          simp only [Bool.and_eq_true, decide_eq_true_eq, not_and] at hT ⊢
          intro hc
          exact fun hc2 => hT hc hc2
        rw [hc1]
        have := hwin T
        omega
  · rw [if_neg hcap]
    push_neg at hcap
    refine ⟨⟨a.t1, le_trans h2 h3, ?_⟩, ?_, ?_⟩
    · rw [List.filter_append, hpr]
      have ht3 : decide (a.t1 - 60 < a.t3) = true := by
        simp only [decide_eq_true_eq]
        linarith
      simp [ht3]
    · rw [List.length_append]
      simp only [List.length_singleton]
      omega
    · intro T
      rw [windowCount_append]
      by_cases hT : T - 60 < a.t3 ∧ a.t3 ≤ T
      · have hc1 : windowCount [a.t3] T ≤ 1 := by
          rw [windowCount]
          exact le_trans (List.length_filter_le _ _) (by simp)
        have hc2 : windowCount hist T ≤
            (hist.filter (fun r => decide (a.t1 - 60 < r))).length := by
          apply windowCount_le_filter
          linarith [hT.2]
        rw [← hpr] at hc2
        omega
      · have hc1 : windowCount [a.t3] T = 0 := by
          rw [windowCount, List.length_eq_zero]
          rw [List.filter_eq_nil_iff]
          intro b hb
          rw [List.mem_singleton] at hb
          subst hb
          simp only [Bool.and_eq_true, decide_eq_true_eq, not_and] at hT ⊢
          intro hc
          exact fun hc2 => hT hc hc2
        rw [hc1]
        have := hwin T
        omega

theorem limiter_run (maxCalls : Nat) (hmax : 1 ≤ maxCalls) :
    ∀ (as : List AcquireTimes) (tPrev : ℚ) (hist calls : List ℚ),
      limiterInv maxCalls hist calls tPrev →
      traceOKb maxCalls tPrev calls as = true →
      ∀ T, windowCount (hist ++ limiterRecorded as) T ≤ maxCalls := by
  intro as
  induction as with
  | nil =>
      intro tPrev hist calls hInv _ T
      simpa [limiterRecorded] using hInv.2.2 T
  | cons a rest ih =>
      intro tPrev hist calls hInv htr T
      rw [traceOKb, Bool.and_eq_true] at htr
      obtain ⟨hAcq, htr'⟩ := htr
      have hstep := limiter_step maxCalls hmax hist calls tPrev a hInv hAcq
      have hrun := ih a.t3 (hist ++ [a.t3]) (waitIfNeeded maxCalls calls a) hstep htr' T
      rw [limiterRecorded] at hrun ⊢
      simpa [List.append_assoc] using hrun

theorem dbKeys_store_nodup {db : RelDB} (rel : Relationship) (now : Int)
    (h : (dbKeys db).Nodup) : (dbKeys (storeRelationship db rel now)).Nodup := by
  rw [storeRelationship, dbKeys_docSet]
  by_cases hmem : relationshipId rel.source_paper_id rel.target_paper_id
      rel.relationship_type ∈ dbKeys db
  · rw [if_pos hmem]; exact h
  · rw [if_neg hmem, ← List.concat_eq_append]
    exact List.Nodup.concat hmem h

theorem dbKeys_store_count {db : RelDB} (rel : Relationship) (now : Int)
    (h : (dbKeys db).Nodup) :
    (dbKeys (storeRelationship db rel now)).count
      (relationshipId rel.source_paper_id rel.target_paper_id rel.relationship_type)
      = 1 := by
  rw [storeRelationship, dbKeys_docSet]
  by_cases hmem : relationshipId rel.source_paper_id rel.target_paper_id
      rel.relationship_type ∈ dbKeys db
  · rw [if_pos hmem]
    exact List.count_eq_one_of_mem h hmem
  · rw [if_neg hmem, List.count_append]
    rw [List.count_eq_zero_of_not_mem hmem]
    simp

theorem batchGo_responds_inv (classify : Paper → Paper → LLMResponse) (np : Paper)
    (nd : Option Int) (mc : ℚ) :
    ∀ (eps : List Paper) (t : BatchTrace),
      detectRelationshipsBatchGo classify np nd mc eps = .ok t →
      ∀ ep ∈ eps, np.paper_id ≠ ep.paper_id →
        temporalSkipB nd (getPaperDate ep) = false →
        respondsB (classify np ep) = true := by
  intro eps
  induction eps with
  | nil => intro t _ ep hep; simp at hep
  | cons ep0 rest ih =>
      intro t ht ep hep hid hskip
      by_cases hid0 : np.paper_id = ep0.paper_id
      · rw [detectRelationshipsBatchGo, if_pos hid0] at ht
        rcases List.mem_cons.mp hep with h0 | h'
        · subst h0; exact absurd hid0 hid
        · exact ih t ht ep h' hid hskip
      · rw [detectRelationshipsBatchGo, if_neg hid0] at ht
        cases hskip0 : temporalSkipB nd (getPaperDate ep0) with
        | true =>
            rw [hskip0] at ht
            simp only [if_true] at ht
            cases hrec : detectRelationshipsBatchGo classify np nd mc rest with
            | error e => rw [hrec] at ht; exact absurd ht (by simp)
            | ok t' =>
                rw [hrec] at ht
                rcases List.mem_cons.mp hep with h0 | h'
                · subst h0; rw [hskip0] at hskip; exact absurd hskip (by simp)
                · exact ih t' hrec ep h' hid hskip
        | false =>
            rw [hskip0] at ht
            simp only [Bool.false_eq_true, if_false] at ht
            cases hdet : detectRelationship (classify np ep0) with
            | error e => rw [hdet] at ht; exact absurd ht (by simp)
            | ok result =>
                rw [hdet] at ht
                cases hrec : detectRelationshipsBatchGo classify np nd mc rest with
                | error e => rw [hrec] at ht; exact absurd ht (by simp)
                | ok t' =>
                    rcases List.mem_cons.mp hep with h0 | h'
                    · subst h0
                      cases hcl : classify np ep with
                      | failure m => rw [hcl] at hdet; simp [detectRelationship] at hdet
                      | text p => simp [respondsB]
                    · exact ih t' hrec ep h' hid hskip

/-! ## Claims -/

/-- C1: For every persisted RelationshipRecord whose source and target papers
both have resolvable dates (via `parse_date` / `get_paper_date`), the source
paper's date is greater than or equal to the target paper's date (edges point
newer-to-older); every detection path that writes relationships enforces this
before persisting.  The writing detection paths are the two
`RelationshipAgent` batch loops and the bidirectional regeneration script,
each of which skips a pair when both dates resolve and the prospective source
is strictly older; the graph-updater handlers contain no date check, but as
written they never persist anything: both their existence-check and their
agent call raise `TypeError` (mismatched signatures), caught by their
`except` branch.  The final conjunct records that `store_relationship`
persists the endpoints unchanged, so the guarantee transfers to the stored
documents. -/
theorem C1_temporal_invariant_enforced_on_all_writing_paths :
    (∀ (classify : Paper → Paper → LLMResponse) (newPaper : Paper)
        (existingPapers : List Paper) (minConfidence : ℚ) (t : BatchTrace),
      detectRelationshipsBatch classify newPaper existingPapers minConfidence = .ok t →
      ∀ rel ∈ t.relationships,
        rel.source_paper_id = newPaper.paper_id ∧
        ∃ ep ∈ existingPapers, rel.target_paper_id = ep.paper_id ∧
          ∀ sd td, getPaperDate newPaper = some sd → getPaperDate ep = some td →
            td ≤ sd) ∧
    (∀ (classify : Paper → Paper → LLMResponse) (newPaper : Paper)
        (similarPapers : List (Paper × ℚ)) (t : BatchTrace),
      detectRelationshipsBatchFiltered classify newPaper similarPapers = .ok t →
      ∀ rel ∈ t.relationships,
        rel.source_paper_id = newPaper.paper_id ∧
        ∃ sp ∈ similarPapers, rel.target_paper_id = sp.1.paper_id ∧
          ∀ sd td, getPaperDate newPaper = some sd → getPaperDate sp.1 = some td →
            td ≤ sd) ∧
    (∀ (classify : Paper → Paper → LLMResponse) (existingPairs : List (String × String))
        (pa pb : Paper) (rel : Relationship),
      regenLostPair classify existingPairs pa pb = .stored rel →
      rel.source_paper_id = pa.paper_id ∧ rel.target_paper_id = pb.paper_id ∧
        ∀ sd td, getPaperDate pa = some sd → getPaperDate pb = some td → td ≤ sd) ∧
    (∀ (classify : Paper → Paper → LLMResponse) (skipExisting existingFound : Bool)
        (sp tp : Paper),
      (guServiceDetect classify skipExisting existingFound sp tp).2 = none ∧
      (guJobDetect classify skipExisting existingFound sp tp).2 = none) ∧
    (∀ (rel : Relationship) (now : Int),
      (mkStoredDoc rel now).source_paper_id = rel.source_paper_id ∧
      (mkStoredDoc rel now).target_paper_id = rel.target_paper_id) := by
  refine ⟨?_, ?_, ?_, ?_, ?_⟩
  · intro classify np eps mc t ht rel hrel
    obtain ⟨h1, _, _, _, ep, hep, hteq, hskip⟩ :=
      batchGo_rel_sound classify np (getPaperDate np) mc eps t ht rel hrel
    exact ⟨h1, ep, hep, hteq,
      fun sd td hsd htd => temporalSkipB_false_dates hskip hsd htd⟩
  · intro classify np sps t ht rel hrel
    obtain ⟨h1, _, _, _, sp, hsp, hteq, hskip⟩ :=
      filteredGo_rel_sound classify np (getPaperDate np) sps t ht rel hrel
    exact ⟨h1, sp, hsp, hteq,
      fun sd td hsd htd => temporalSkipB_false_dates hskip hsd htd⟩
  · intro classify pairs pa pb rel h
    obtain ⟨h1, h2, _, _, _, hskip⟩ :=
      regenLostPair_stored_sound classify pairs pa pb rel h
    exact ⟨h1, h2, fun sd td hsd htd => temporalSkipB_false_dates hskip hsd htd⟩
  · intro classify se ef sp tp
    exact ⟨guServiceDetect_no_write classify se ef sp tp,
      guJobDetect_no_write classify se ef sp tp⟩
  · intro rel now
    exact ⟨rfl, rfl⟩

/-- Witness for C1: the batch path applied to a 2021 paper against a 2019
paper with a concrete `supports`/0.9 classifier response. -/
theorem C1_temporal_invariant_enforced_on_all_writing_paths_witness :
    ∃ ep ∈ [paperA2019],
      (⟨"B", "A", "supports", qPoint9, "ev", none⟩ : Relationship).target_paper_id =
          ep.paper_id ∧
        ∀ sd td, getPaperDate paperB2021 = some sd → getPaperDate ep = some td →
          td ≤ sd :=
  (C1_temporal_invariant_enforced_on_all_writing_paths.1
    (classifyAlways respSupports09) paperB2021 [paperA2019] qPoint6
    ⟨[⟨"B", "A", "supports", qPoint9, "ev", none⟩], 0, [("B", "A")]⟩ (by decide)
    ⟨"B", "A", "supports", qPoint9, "ev", none⟩ (by simp)).2

/-- C2: No persisted RelationshipRecord ever has relationship_type `"none"`:
for every classifier result with type `"none"`, every detection path that
handles classifier results discards the result without writing a record, so
every stored detection record's type is one of `supports`, `contradicts`,
`extends`.  The handling paths are the two `RelationshipAgent` batch loops
and the bidirectional regeneration script, which filter on
`relationship_type != 'none'` against the validated type set; the
graph-updater handlers never obtain a classifier result (their agent call
raises `TypeError`, caught by their `except`) and never write.  The final
conjunct shows the persisted document carries the record's type unchanged. -/
theorem C2_none_results_never_persisted :
    (∀ (classify : Paper → Paper → LLMResponse) (newPaper : Paper)
        (existingPapers : List Paper) (minConfidence : ℚ) (t : BatchTrace),
      detectRelationshipsBatch classify newPaper existingPapers minConfidence = .ok t →
      ∀ rel ∈ t.relationships,
        rel.relationship_type = "supports" ∨ rel.relationship_type = "contradicts" ∨
          rel.relationship_type = "extends") ∧
    (∀ (classify : Paper → Paper → LLMResponse) (newPaper : Paper)
        (similarPapers : List (Paper × ℚ)) (t : BatchTrace),
      detectRelationshipsBatchFiltered classify newPaper similarPapers = .ok t →
      ∀ rel ∈ t.relationships,
        rel.relationship_type = "supports" ∨ rel.relationship_type = "contradicts" ∨
          rel.relationship_type = "extends") ∧
    (∀ (classify : Paper → Paper → LLMResponse) (existingPairs : List (String × String))
        (pa pb : Paper) (rel : Relationship),
      regenLostPair classify existingPairs pa pb = .stored rel →
      rel.relationship_type = "supports" ∨ rel.relationship_type = "contradicts" ∨
        rel.relationship_type = "extends") ∧
    (∀ (classify : Paper → Paper → LLMResponse) (skipExisting existingFound : Bool)
        (sp tp : Paper),
      (guServiceDetect classify skipExisting existingFound sp tp).2 = none ∧
      (guJobDetect classify skipExisting existingFound sp tp).2 = none) ∧
    (∀ (rel : Relationship) (now : Int),
      (mkStoredDoc rel now).relationship_type = rel.relationship_type) := by
  have hval : ∀ (s : String), s ∈ validTypes → s ≠ "none" →
      s = "supports" ∨ s = "contradicts" ∨ s = "extends" := by
    intro s hs hne
    simp only [validTypes, List.mem_cons, List.not_mem_nil, or_false] at hs
    rcases hs with h | h | h | h
    · exact Or.inl h
    · exact Or.inr (Or.inl h)
    · exact Or.inr (Or.inr h)
    · exact absurd h hne
  refine ⟨?_, ?_, ?_, ?_, ?_⟩
  · intro classify np eps mc t ht rel hrel
    obtain ⟨_, hv, hne, _, _⟩ :=
      batchGo_rel_sound classify np (getPaperDate np) mc eps t ht rel hrel
    exact hval _ hv hne
  · intro classify np sps t ht rel hrel
    obtain ⟨_, hv, hne, _, _⟩ :=
      filteredGo_rel_sound classify np (getPaperDate np) sps t ht rel hrel
    exact hval _ hv hne
  · intro classify pairs pa pb rel h
    obtain ⟨_, _, hv, hne, _, _⟩ := regenLostPair_stored_sound classify pairs pa pb rel h
    exact hval _ hv hne
  · intro classify se ef sp tp
    exact ⟨guServiceDetect_no_write classify se ef sp tp,
      guJobDetect_no_write classify se ef sp tp⟩
  · intro rel now
    rfl

/-- Witness for C2: the batch path applied to a concrete `supports`/0.9
classifier response; the stored record's type is one of the three persisted
types. -/
theorem C2_none_results_never_persisted_witness :
    (⟨"B", "A", "supports", qPoint9, "ev", none⟩ : Relationship).relationship_type
        = "supports" ∨
      (⟨"B", "A", "supports", qPoint9, "ev", none⟩ : Relationship).relationship_type
        = "contradicts" ∨
      (⟨"B", "A", "supports", qPoint9, "ev", none⟩ : Relationship).relationship_type
        = "extends" :=
  C2_none_results_never_persisted.1 (classifyAlways respSupports09) paperB2021
    [paperA2019] qPoint6
    ⟨[⟨"B", "A", "supports", qPoint9, "ev", none⟩], 0, [("B", "A")]⟩ (by decide)
    ⟨"B", "A", "supports", qPoint9, "ev", none⟩ (by simp)

/-- C3: `store_relationship` derives the relationship id deterministically
from (source, target, type) — it is a pure function of the triple, SHA-256
truncated to 16 hex chars — and writes with document-keyed set semantics
(`docSet`), so storing the same relationship twice leaves the document-id
set and record count unchanged (second write is an upsert), re-running an
incremental detection's store loop over the same relationship list adds zero
new documents, and on a well-formed collection exactly one document per
triple exists after a store. -/
theorem C3_store_relationship_idempotent_upsert :
    (∀ (db : RelDB) (rel : Relationship) (t1 t2 : Int),
      dbKeys (storeRelationship (storeRelationship db rel t1) rel t2) =
        dbKeys (storeRelationship db rel t1) ∧
      (storeRelationship (storeRelationship db rel t1) rel t2).length =
        (storeRelationship db rel t1).length) ∧
    (∀ (db : RelDB) (rels : List Relationship) (t1 t2 : Int),
      dbKeys (storeAll (storeAll db rels t1) rels t2) = dbKeys (storeAll db rels t1)) ∧
    (∀ (db : RelDB) (rel : Relationship) (now : Int), (dbKeys db).Nodup →
      (dbKeys (storeRelationship db rel now)).Nodup ∧
      (dbKeys (storeRelationship db rel now)).count
        (relationshipId rel.source_paper_id rel.target_paper_id
          rel.relationship_type) = 1) := by
  have hlen : ∀ d : RelDB, d.length = (dbKeys d).length := by
    intro d
    rw [dbKeys, List.length_map]
  refine ⟨?_, ?_, ?_⟩
  · intro db rel t1 t2
    have hkeys : dbKeys (storeRelationship (storeRelationship db rel t1) rel t2) =
        dbKeys (storeRelationship db rel t1) := by
      rw [storeRelationship]
      exact dbKeys_docSet_of_mem _ (relId_mem_store db rel t1)
    exact ⟨hkeys, by rw [hlen, hlen, hkeys]⟩
  · intro db rels t1 t2
    exact dbKeys_storeAll_of_all_mem t2 rels (storeAll db rels t1)
      (fun rel hrel => relId_mem_storeAll t1 rels db rel hrel)
  · intro db rel now h
    exact ⟨dbKeys_store_nodup rel now h, dbKeys_store_count rel now h⟩

/-- Witness for C3: storing a concrete relationship into the empty
collection yields a duplicate-free key set with exactly one document for the
triple's id. -/
theorem C3_store_relationship_idempotent_upsert_witness :
    (dbKeys ([] : RelDB)).Nodup ∧
      ((dbKeys (storeRelationship ([] : RelDB)
          ⟨"B", "A", "supports", qPoint9, "ev", none⟩ 0)).Nodup ∧
        (dbKeys (storeRelationship ([] : RelDB)
          ⟨"B", "A", "supports", qPoint9, "ev", none⟩ 0)).count
          (relationshipId "B" "A" "supports") = 1) :=
  ⟨by decide, C3_store_relationship_idempotent_upsert.2.2 []
    ⟨"B", "A", "supports", qPoint9, "ev", none⟩ 0 (by decide)⟩

/-- C4: A full sweep over a corpus of n fully-dated papers (with distinct
ids, against a classifier that always responds) first sorts papers by
resolved date descending, then pairs the paper at each index against every
later paper; it attempts exactly n·(n−1)/2 classifications, covers every
unordered pair of distinct papers in one of its orientations, the
temporal-illegality skip never fires, and no per-paper batch aborts.  The
"no existing relationships" premise of the claim is inherent to this path:
`regenerate_all` deletes all relationships first and its batch loop performs
no existence check. -/
theorem C4_full_sweep_counts (classify : Paper → Paper → LLMResponse)
    (papers : List Paper)
    (hDates : ∀ p ∈ papers, (getPaperDate p).isSome)
    (hIds : (papers.map Paper.paper_id).Nodup)
    (hResp : ∀ p q : Paper, respondsB (classify p q) = true) :
    (regenerateAllSweep classify papers).classifiedPairs.length =
        papers.length * (papers.length - 1) / 2 ∧
      (regenerateAllSweep classify papers).temporalSkips = 0 ∧
      (regenerateAllSweep classify papers).paperErrors = 0 ∧
      ∀ p ∈ papers, ∀ q ∈ papers, p.paper_id ≠ q.paper_id →
        ((p.paper_id, q.paper_id) ∈ (regenerateAllSweep classify papers).classifiedPairs ∨
          (q.paper_id, p.paper_id) ∈ (regenerateAllSweep classify papers).classifiedPairs) := by
  have hperm := sortPapersNewestFirst_perm papers
  have hpw := sortPapersNewestFirst_pairwise papers
  have hDates' : ∀ p ∈ sortPapersNewestFirst papers, (getPaperDate p).isSome :=
    fun p hp => hDates p (hperm.mem_iff.mp hp)
  have hIds' : ((sortPapersNewestFirst papers).map Paper.paper_id).Nodup :=
    (hperm.map Paper.paper_id).nodup_iff.mpr hIds
  have hcounts := regenAllGo_counts classify (sortPapersNewestFirst papers)
    hpw hDates' hIds' hResp
  have hlen : (sortPapersNewestFirst papers).length = papers.length := hperm.length_eq
  refine ⟨?_, hcounts.2.1, hcounts.2.2, ?_⟩
  · rw [regenerateAllSweep]
    rw [hcounts.1, hlen]
  · intro p hp q hq hne
    have hp' : p ∈ sortPapersNewestFirst papers := hperm.mem_iff.mpr hp
    have hq' : q ∈ sortPapersNewestFirst papers := hperm.mem_iff.mpr hq
    obtain ⟨l₁, l₂, hS⟩ := List.append_of_mem hp'
    have hq'' : q ∈ l₁ ∨ q ∈ l₂ := by
      rw [hS] at hq'
      rcases List.mem_append.mp hq' with h | h
      · exact Or.inl h
      · rcases List.mem_cons.mp h with h0 | h1
        · exact absurd (congrArg Paper.paper_id h0) hne.symm
        · exact Or.inr h1
    rcases hq'' with hql | hqr
    · obtain ⟨m₁, m₂, hSq⟩ := List.append_of_mem hql
      have hS' : sortPapersNewestFirst papers = m₁ ++ q :: (m₂ ++ p :: l₂) := by
        rw [hS, hSq]
        simp [List.append_assoc]
      refine Or.inr (regenAllGo_pairs_cover classify _ hpw hDates' hIds' hResp
        m₁ q (m₂ ++ p :: l₂) hS' p ?_)
      exact List.mem_append_right _ (List.mem_cons_self _ _)
    · exact Or.inl (regenAllGo_pairs_cover classify _ hpw hDates' hIds' hResp
        l₁ p l₂ hS q hqr)

/-- Witness for C4: a three-paper corpus (2021, 2019, 2017) with an
always-`supports` classifier attempts exactly 3·2/2 = 3 classifications. -/
theorem C4_full_sweep_counts_witness :
    (regenerateAllSweep (classifyAlways respSupports09)
      [paperB2021, paperA2019, paperC2017]).classifiedPairs.length =
      [paperB2021, paperA2019, paperC2017].length *
        ([paperB2021, paperA2019, paperC2017].length - 1) / 2 :=
  (C4_full_sweep_counts (classifyAlways respSupports09)
    [paperB2021, paperA2019, paperC2017]
    (by decide) (by decide) (fun _ _ => rfl)).1

/-- Counterexample to C5: the duplicate scan flags every later member of the
group in scan order and never reads `detected_at`.  Here the record scanned
second (`"r2"`, detected at time 3) is the *older* one, yet it is the one
flagged for deletion — the kept record `"r1"` has the later `detected_at` 5,
contradicting "the member kept is the one with the earliest detected_at".
Reversing the scan order flags `"r1"` instead, contradicting "independent of
the order in which records are scanned". -/
theorem C5_counterexample_newer_kept_and_order_dependent :
    findBidirectionalContradictions [contraFirstNewer, contraSecondOlder] = ["r2"] ∧
    contraSecondOlder.detected_at = some 3 ∧ contraFirstNewer.detected_at = some 5 ∧
    findBidirectionalContradictions [contraSecondOlder, contraFirstNewer] = ["r1"] :=
  ⟨by decide, rfl, rfl, by decide⟩

/-- C5 amended: when the auditor groups `contradicts` edges by unordered
pair key, the member kept is the *first one encountered in scan order*; a
record is flagged for deletion exactly when an earlier record of the scan
has the same unordered pair; `detected_at` is never consulted, so which
member survives depends on the scan order of the records. -/
theorem C5_amended_first_scanned_member_kept (rels : List RelRecord)
    (hids : ((rels.filter (fun r => r.relationship_type = "contradicts")).map
      (·.relationship_id)).Nodup) :
    ∀ (l₁ : List RelRecord) (r : RelRecord) (l₂ : List RelRecord),
      rels.filter (fun r => r.relationship_type = "contradicts") = l₁ ++ r :: l₂ →
      (r.relationship_id ∈ findBidirectionalContradictions rels ↔
        ∃ r' ∈ l₁, normPair r'.source_paper_id r'.target_paper_id =
          normPair r.source_paper_id r.target_paper_id) := by
  intro l₁ r l₂ hS
  rw [findBidirectionalContradictions,
    findBidirectionalGo_mem_iff (rels.filter (fun r => r.relationship_type = "contradicts"))
      [] hids l₁ r l₂ hS]
  simp

/-- Witness for the amended C5, at the concrete two-record group: the second
record is flagged precisely because the first-scanned record has the same
unordered pair. -/
theorem C5_amended_first_scanned_member_kept_witness :
    contraSecondOlder.relationship_id ∈
        findBidirectionalContradictions [contraFirstNewer, contraSecondOlder] ↔
      ∃ r' ∈ [contraFirstNewer], normPair r'.source_paper_id r'.target_paper_id =
        normPair contraSecondOlder.source_paper_id contraSecondOlder.target_paper_id :=
  C5_amended_first_scanned_member_kept [contraFirstNewer, contraSecondOlder]
    (by decide) [contraFirstNewer] contraSecondOlder [] (by decide)

/-- C6: For every temporal violation it repairs under the "reverse"
strategy, the auditor deletes the old record and inserts a new record whose
source and target are the old record's target and source swapped, with
relationship_type, confidence and evidence equal to the old record's values.
(`newIds` supplies the fresh auto-generated document ids of `add()`; fresh
means distinct from every existing document id.) -/
theorem C6_reverse_repair_swaps_and_preserves (rels : List RelRecord)
    (papers : List Paper) (newIds : List String)
    (hLen : (findTemporalViolationsToReverse rels papers).length ≤ newIds.length)
    (hFresh : ∀ nid ∈ newIds, ∀ r ∈ rels, nid ≠ r.relationship_id) :
    ∀ v ∈ findTemporalViolationsToReverse rels papers,
      (∃ rel ∈ rels, rel.relationship_id = v.relationship_id ∧
        rel.source_paper_id = v.source_id ∧ rel.target_paper_id = v.target_id ∧
        rel.relationship_type = v.relationship_type ∧ rel.confidence = v.confidence ∧
        rel.evidence = v.evidence) ∧
      (∃ nid ∈ newIds,
        reversedRecord v nid ∈ applyRepair rels papers newIds ∧
        (reversedRecord v nid).source_paper_id = v.target_id ∧
        (reversedRecord v nid).target_paper_id = v.source_id ∧
        (reversedRecord v nid).relationship_type = v.relationship_type ∧
        (reversedRecord v nid).confidence = v.confidence ∧
        (reversedRecord v nid).evidence = v.evidence) ∧
      (∀ r ∈ applyRepair rels papers newIds, r.relationship_id ≠ v.relationship_id) := by
  intro v hv
  have happly : applyRepair rels papers newIds =
      (findBidirectionalContradictions rels).foldl (fun st rid => deleteById st rid)
        (((findTemporalViolationsToReverse rels papers).zip newIds).foldl
          (fun st vn => deleteById st vn.1.relationship_id ++ [reversedRecord vn.1 vn.2])
          rels) := rfl
  obtain ⟨rel, hrel, hf⟩ := List.mem_filterMap.mp hv
  obtain ⟨hrid, hsrc, htgt, hty, hconf, hev⟩ := violationOf_rid hf
  have hvz : v ∈ ((findTemporalViolationsToReverse rels papers).zip newIds).map Prod.fst := by
    rw [List.map_fst_zip _ _ hLen]
    exact hv
  obtain ⟨p, hp, hp1⟩ := List.mem_map.mp hvz
  have hpmem : (v, p.2) ∈ (findTemporalViolationsToReverse rels papers).zip newIds := by
    have : p = (v, p.2) := by
      rw [← hp1]
    rw [← this]
    exact hp
  have hnid_mem : p.2 ∈ newIds := (List.of_mem_zip hpmem).2
  have hvsids : ∀ q ∈ (findTemporalViolationsToReverse rels papers).zip newIds,
      ∀ x ∈ newIds, x ≠ q.1.relationship_id := by
    intro q hq x hx
    obtain ⟨relq, hrelq, hfq⟩ := List.mem_filterMap.mp (List.of_mem_zip hq).1
    rw [(violationOf_rid hfq).1]
    exact hFresh x hx relq hrelq
  refine ⟨⟨rel, hrel, hrid.symm, hsrc.symm, htgt.symm, hty.symm, hconf.symm, hev.symm⟩,
    ⟨p.2, hnid_mem, ?_, rfl, rfl, rfl, rfl, rfl⟩, ?_⟩
  · rw [happly]
    refine foldDel_preserve _ _ _ ?_ ?_
    · exact foldRev_adds _ rels v p.2 hpmem (fun q hq => hvsids q hq p.2 hnid_mem)
    · intro d hd
      obtain ⟨r', hr', he⟩ := findBidirectional_subset rels d hd
      have : (reversedRecord v p.2).relationship_id = p.2 := rfl
      rw [this, he]
      exact hFresh p.2 hnid_mem r' hr'
  · intro r hr
    rw [happly] at hr
    refine foldRev_removes _ rels v p.2 hpmem ?_ r (foldDel_subset _ _ r hr)
    intro q hq
    rw [hrid]
    exact hFresh q.2 (List.of_mem_zip hq).2 rel hrel

/-- Witness for C6: the backwards `contradicts` record A→B (A 2019, B 2021)
is repaired into a fresh record B→A with type, confidence and evidence
preserved. -/
theorem C6_reverse_repair_swaps_and_preserves_witness :
    ∃ nid ∈ ["n1"],
      reversedRecord ⟨"r2", "A", "B", "contradicts", qPoint8, "", ""⟩ nid ∈
          applyRepair [contraSecondOlder] [paperA2019, paperB2021] ["n1"] ∧
        (reversedRecord ⟨"r2", "A", "B", "contradicts", qPoint8, "", ""⟩ nid).source_paper_id
            = "B" ∧
        (reversedRecord ⟨"r2", "A", "B", "contradicts", qPoint8, "", ""⟩ nid).target_paper_id
            = "A" ∧
        (reversedRecord ⟨"r2", "A", "B", "contradicts", qPoint8, "", ""⟩ nid).relationship_type
            = "contradicts" ∧
        (reversedRecord ⟨"r2", "A", "B", "contradicts", qPoint8, "", ""⟩ nid).confidence
            = qPoint8 ∧
        (reversedRecord ⟨"r2", "A", "B", "contradicts", qPoint8, "", ""⟩ nid).evidence
            = "" :=
  (C6_reverse_repair_swaps_and_preserves [contraSecondOlder] [paperA2019, paperB2021]
    ["n1"] (by decide) (by decide)
    ⟨"r2", "A", "B", "contradicts", qPoint8, "", ""⟩ (by decide)).2.1

/-- Counterexample to C7: one audit-and-repair pass does *not* always reach
a fixed point.  Take papers A (2019) and B (2021) and two `contradicts`
records: `"r1"` = B→A (legal) scanned first, `"r2"` = A→B (a temporal
violation) scanned second.  The duplicate scan (run on the pre-repair list)
flags `"r2"` — the very record the reversal also deletes — so after the
pass the reversed copy of `"r2"` (fresh id `"n1"`, direction B→A) coexists
with the kept `"r1"` (also B→A): a second audit finds a new duplicate
contradiction (`["n1"] ≠ []`), and a second repair run would delete it,
contradicting both "finds zero duplicates" and "running the auditor twice
produces zero further changes". -/
theorem C7_counterexample_repair_not_fixed_point :
    findBidirectionalContradictions
        (applyRepair [contraFirstNewer, contraSecondOlder]
          [paperA2019, paperB2021] ["n1"]) = ["n1"] ∧
      findTemporalViolationsToReverse [contraFirstNewer, contraSecondOlder]
          [paperA2019, paperB2021] ≠ [] ∧
      ["n1"] ≠ ([] : List String) :=
  ⟨by decide, by decide, by decide⟩

/-- C7 amended: one repair pass eliminates every temporal violation (a
second audit finds zero violations), for any graph and any sufficient
supply of fresh ids; it does not always eliminate duplicate contradictions,
because reversing a `contradicts` violation can recreate a bidirectional
duplicate with the record the duplicate scan kept (see the counterexample),
so a second audit can find new duplicates and the auditor is not idempotent
in general. -/
theorem C7_amended_repair_eliminates_all_violations (rels : List RelRecord)
    (papers : List Paper) (newIds : List String)
    (hLen : (findTemporalViolationsToReverse rels papers).length ≤ newIds.length) :
    findTemporalViolationsToReverse (applyRepair rels papers newIds) papers = [] := by
  have happly : applyRepair rels papers newIds =
      (findBidirectionalContradictions rels).foldl (fun st rid => deleteById st rid)
        (((findTemporalViolationsToReverse rels papers).zip newIds).foldl
          (fun st vn => deleteById st vn.1.relationship_id ++ [reversedRecord vn.1 vn.2])
          rels) := rfl
  rw [findTemporalViolationsToReverse]
  rw [List.filterMap_eq_nil_iff]
  intro r hr
  rw [happly] at hr
  have hr' := foldDel_subset _ _ r hr
  rcases foldRev_mem_cases _ rels r hr' with ⟨hst, hne⟩ | ⟨p, hp, he⟩
  · cases hfr : violationOf papers r with
    | none => rfl
    | some v =>
        have hv : v ∈ findTemporalViolationsToReverse rels papers :=
          List.mem_filterMap.mpr ⟨r, hst, hfr⟩
        have hvz : v ∈ ((findTemporalViolationsToReverse rels papers).zip newIds).map
            Prod.fst := by
          rw [List.map_fst_zip _ _ hLen]
          exact hv
        obtain ⟨p, hp, hp1⟩ := List.mem_map.mp hvz
        have hne' := hne p hp
        rw [hp1] at hne'
        exact absurd ((violationOf_rid hfr).1) (fun h => hne' h.symm)
  · have hp1v : p.1 ∈ findTemporalViolationsToReverse rels papers :=
      (List.of_mem_zip (by exact hp)).1
    obtain ⟨relq, hrelq, hfq⟩ := List.mem_filterMap.mp hp1v
    rw [he]
    exact violationOf_reversedRecord p.2 ⟨relq, hfq⟩

/-- Witness for the amended C7: on the counterexample graph the repaired
state contains zero temporal violations. -/
theorem C7_amended_repair_eliminates_all_violations_witness :
    findTemporalViolationsToReverse
        (applyRepair [contraFirstNewer, contraSecondOlder]
          [paperA2019, paperB2021] ["n1"]) [paperA2019, paperB2021] = [] :=
  C7_amended_repair_eliminates_all_violations [contraFirstNewer, contraSecondOlder]
    [paperA2019, paperB2021] ["n1"] (by decide)

/-- C8: The RateLimiter never admits more than `max_calls_per_minute` calls
whose recorded timestamps fall within any rolling 60-second window.
`wait_if_needed` holds the shared lock for its whole prune-check-sleep-record
body, so a run is a serialized trace of acquisitions; `traceOKb` states
exactly the physics of such a trace (time is monotone across the three
`time.time()` observations, and when the cap branch was taken the sleep of
`60 - (now - oldest) + 0.1` seconds has elapsed before the second
observation).  For every well-formed trace from an empty log, every rolling
window `(T-60, T]` contains at most `max_calls_per_minute` recorded
timestamps — callers block (sleep) rather than drop work. -/
theorem C8_rate_limiter_rolling_window_bound (maxCalls : Nat) (hmax : 1 ≤ maxCalls)
    (t0 : ℚ) (as : List AcquireTimes)
    (hOK : traceOKb maxCalls t0 [] as = true) :
    ∀ T : ℚ, windowCount (limiterRecorded as) T ≤ maxCalls := by
  intro T
  have hInv : limiterInv maxCalls [] [] t0 :=
    ⟨⟨t0, le_refl _, by simp⟩, by simp, fun T => by simp [windowCount]⟩
  have h := limiter_run maxCalls hmax as t0 [] [] hInv hOK T
  simpa using h

/-- Witness for C8: a cap-1 limiter acquired at time 0 and again at time 5;
the second acquisition finds the log full and its recorded time 66 reflects
the mandatory sleep past 0 + 60 + 0.1; the window ending at 66 holds at
most one call. -/
theorem C8_rate_limiter_rolling_window_bound_witness :
    windowCount (limiterRecorded [⟨0, 0, 0⟩, ⟨5, 66, 66⟩]) 66 ≤ 1 :=
  C8_rate_limiter_rolling_window_bound 1 (by norm_num) 0 [⟨0, 0, 0⟩, ⟨5, 66, 66⟩]
    (by norm_num [traceOKb, acquireOKb, waitIfNeeded, pruneCalls, qPoint1_eq]) 66

/-- Counterexample to C9: a classifier transport error is *not* treated as
`type=none, confidence=0`, and it *does* abort the enclosing batch.
`detect_relationship` catches only the JSON-parsing exceptions (lines
252-260); the `asyncio.run` call of line 210 sits outside the `try`, so a
transport error propagates as a raised exception (`.error`), and
`detect_relationships_batch`, whose loop has no handler, aborts wholesale:
with existing papers [A, C] where the call against A raises, the batch
returns the error and the A- *and* C-pairs are both lost, although an
intact run would have classified C (third conjunct). -/
theorem C9_counterexample_transport_error_aborts_batch :
    detectRelationship (.failure "ConnectionError") = .error "ConnectionError" ∧
      detectRelationshipsBatch classifyFailOnA paperB2021 [paperA2019, paperC2017]
        qPoint6 = .error "ConnectionError" ∧
      detectRelationshipsBatch (classifyAlways respSupports09) paperB2021 [paperC2017]
        qPoint6 = .ok ⟨[⟨"B", "C", "supports", qPoint9, "ev", none⟩], 0, [("B", "C")]⟩ :=
  ⟨rfl, by decide, by decide⟩

/-- C9 amended: malformed or unparseable LLM output (including a
non-numeric confidence) is caught inside `detect_relationship` and treated
as `type="none"`, `confidence=0`, and the run continues; but a timeout or
transport error raised by the LLM call itself propagates out of
`detect_relationship` and aborts the enclosing `detect_relationships_batch`
call — a completed batch certifies that every classified pair's call
responded.  The sweep and regeneration scripts survive because they catch
coarser: `regenerate_lost_relationships` catches per pair (the loop
continues with `errorCaught`), and `regenerate_all` catches per paper (the
sweep records the aborted paper and continues). -/
theorem C9_amended_parse_failures_soft_transport_errors_abort_batch :
    (detectRelationship (.text none) = .ok fallbackDetectResult ∧
      fallbackDetectResult.relationship_type = "none" ∧
      fallbackDetectResult.confidence = 0) ∧
    (∀ m, detectRelationship (.failure m) = .error m) ∧
    (∀ (classify : Paper → Paper → LLMResponse) (np : Paper) (eps : List Paper)
        (mc : ℚ) (t : BatchTrace),
      detectRelationshipsBatch classify np eps mc = .ok t →
      ∀ ep ∈ eps, np.paper_id ≠ ep.paper_id →
        temporalSkipB (getPaperDate np) (getPaperDate ep) = false →
        respondsB (classify np ep) = true) ∧
    (∀ (classify : Paper → Paper → LLMResponse) (pairs : List (String × String))
        (pa pb : Paper) (m : String),
      pa.paper_id ≠ pb.paper_id → (pa.paper_id, pb.paper_id) ∉ pairs →
      temporalSkipB (getPaperDate pa) (getPaperDate pb) = false →
      classify pa pb = .failure m →
      regenLostPair classify pairs pa pb = .errorCaught m) ∧
    (∀ (classify : Paper → Paper → LLMResponse) (p : Paper) (rest : List Paper)
        (m : String),
      detectRelationshipsBatch classify p rest qPoint6 = .error m → ¬rest.isEmpty →
      regenerateAllGo classify (p :: rest) =
        ⟨(regenerateAllGo classify rest).classifiedPairs,
          (regenerateAllGo classify rest).temporalSkips,
          (regenerateAllGo classify rest).stored,
          (regenerateAllGo classify rest).paperErrors + 1⟩) := by
  refine ⟨⟨rfl, rfl, rfl⟩, fun m => rfl, ?_, ?_, ?_⟩
  · intro classify np eps mc t ht ep hep hid hskip
    exact batchGo_responds_inv classify np (getPaperDate np) mc eps t ht ep hep hid hskip
  · intro classify pairs pa pb m hid hex hskip hcl
    rw [regenLostPair, if_neg hid, if_neg hex, hskip]
    simp only [Bool.false_eq_true, if_false]
    rw [hcl]
    rfl
  · intro classify p rest m herr hne
    rw [regenerateAllGo, if_neg hne, herr]

/-- Witness for the amended C9: a completed concrete batch certifies the
classifier responded for its classified pair, and the concrete parse
fallback is `none`/0. -/
theorem C9_amended_parse_failures_soft_transport_errors_abort_batch_witness :
    respondsB (classifyAlways respSupports09 paperB2021 paperC2017) = true :=
  C9_amended_parse_failures_soft_transport_errors_abort_batch.2.2.1
    (classifyAlways respSupports09) paperB2021 [paperC2017] qPoint6
    ⟨[⟨"B", "C", "supports", qPoint9, "ev", none⟩], 0, [("B", "C")]⟩ (by decide)
    paperC2017 (by simp) (by decide) (by decide)

/-- C10: In the incremental ingestion path, the new-paper dict is built with
only `paper_id`, `title`, `authors` and `key_finding` — no `published` or
`updated` — so `get_paper_date` on it is `None`, the temporal pre-filter of
`detect_relationships_batch` never skips a pair during pipeline-triggered
incremental detection (zero temporal skips on any completed run), and when
the classifier responds, every existing paper with a different `paper_id` is
classified against the new paper regardless of publication order. -/
theorem C10_pipeline_new_paper_dateless_never_temporally_skipped
    (paperId title : String) (authors : List String) (keyFinding : String)
    (classify : Paper → Paper → LLMResponse) (existingPapers : List Paper) :
    getPaperDate (pipelineNewPaper paperId title authors keyFinding) = none ∧
    (∀ t : BatchTrace,
      detectRelationshipsBatch classify (pipelineNewPaper paperId title authors keyFinding)
        existingPapers qPoint6 = .ok t → t.temporalSkips = 0) ∧
    ((∀ p q : Paper, respondsB (classify p q) = true) →
      ∃ t : BatchTrace,
        detectRelationshipsBatch classify (pipelineNewPaper paperId title authors keyFinding)
          existingPapers qPoint6 = .ok t ∧
        ∀ ep ∈ existingPapers, paperId ≠ ep.paper_id →
          (paperId, ep.paper_id) ∈ t.classifiedPairs) := by
  have hnd : getPaperDate (pipelineNewPaper paperId title authors keyFinding) = none := rfl
  have hid : (pipelineNewPaper paperId title authors keyFinding).paper_id = paperId := rfl
  refine ⟨hnd, ?_, ?_⟩
  · intro t ht
    rw [detectRelationshipsBatch, hnd] at ht
    exact batchGo_skips_zero_of_none classify _ qPoint6 existingPapers t ht
  · intro hresp
    obtain ⟨t, ht⟩ := batchGo_ok_of_responds classify
      (pipelineNewPaper paperId title authors keyFinding) none qPoint6 existingPapers
      (fun ep _ => hresp _ ep)
    refine ⟨t, ?_, ?_⟩
    · rw [detectRelationshipsBatch, hnd]
      exact ht
    · intro ep hep hne
      have := batchGo_classified_mem classify
        (pipelineNewPaper paperId title authors keyFinding) none qPoint6 existingPapers
        t ht ep hep (by rw [hid]; exact hne) (by simp [temporalSkipB])
      rw [hid] at this
      exact this

/-- Witness for C10: a dateless pipeline paper against a dated 2019 paper —
the pair is classified, in disregard of publication order. -/
theorem C10_pipeline_new_paper_dateless_never_temporally_skipped_witness :
    ∃ t : BatchTrace,
      detectRelationshipsBatch (classifyAlways respSupports09)
        (pipelineNewPaper "N" "fresh upload" [] "a finding") [paperA2019] qPoint6 =
          .ok t ∧
      ∀ ep ∈ [paperA2019], "N" ≠ ep.paper_id → ("N", ep.paper_id) ∈ t.classifiedPairs :=
  (C10_pipeline_new_paper_dateless_never_temporally_skipped "N" "fresh upload" []
    "a finding" (classifyAlways respSupports09) [paperA2019]).2.2 (fun _ _ => rfl)
